import Mathlib

/-!
Verification of the evm-balance-watcher repository (Go) against its
natural-language specification, via a shallow embedding in Lean 4.

Conventions used throughout this development:
* Go `map[K]V` is modelled as a total function `K → Option V`
  (a missing key reads as `none`, matching Go's comma-ok idiom).
* A Go pointer `*big.Float` is modelled as `Option Rat` (`none` = nil);
  the spec notes balances use a decimal type preserving 10^18 exactness,
  so the pointed-to value is modelled as an exact rational.
* `time.Duration` (an int64 nanosecond count) is modelled as `Int`;
  absolute timestamps are also `Int` nanoseconds.
* Network calls are oracles passed in as function parameters: a call that
  can fail is a function into `Except String α` (or `Option String` for
  an error of which only nil-ness matters).
* Go string case folding (`strings.EqualFold`) and address parsing
  (`common.HexToAddress`) act on ASCII hex strings in this program, so
  case folding is modelled by ASCII lowercasing.

The file is organised as: all definitions (the embedding), then all
theorems (helper lemmas, claim theorems, witnesses, counterexamples).
-/

/-! ## Definitions -/

/-! ### String helpers -/

/-- ASCII lowercasing of a character, the folding relevant for hex
addresses (models the effect of Go case folding on ASCII data). -/
def lowerChar (c : Char) : Char :=
  if 65 ≤ c.toNat ∧ c.toNat ≤ 90 then Char.ofNat (c.toNat + 32) else c

/-- ASCII lowercasing of a string. -/
def asciiLower (s : String) : String :=
  String.mk (s.data.map lowerChar)

/-- Case-insensitive string equality (models `strings.EqualFold` on the
ASCII hex addresses this program compares). -/
def foldEq (s t : String) : Bool :=
  asciiLower s == asciiLower t

/-! ### Formatting utilities (src/pkg/utils/utils.go)

`*big.Float` is modelled as `Option Rat`; the nil pointer is `none`. -/

/-- Decimal groups of three digits, left to right, for `AddCommas`
(the body of the Go loop `for i := remainder; i < n; i += 3`). -/
def chunks3 (cs : List Char) : List (List Char) :=
  match cs with
  | [] => []
  | c :: rest => ((c :: rest).take 3) :: chunks3 ((c :: rest).drop 3)
termination_by cs.length
decreasing_by simp [List.length_drop]; omega

/-- Embedding of `utils.AddCommas`: thousands grouping of the integer
part of a decimal string. -/
def AddCommas (s : String) : String :=
  if s.length = 0 then s
  else
    let parts := s.splitOn "."
    let integerPart0 := parts.headD ""
    let sign := if integerPart0.startsWith "-" then "-" else ""
    let integerPart :=
      if integerPart0.startsWith "-" then integerPart0.drop 1 else integerPart0
    let n := integerPart.length
    if n ≤ 3 then s
    else
      let rem := n % 3
      let groups := (chunks3 (integerPart.drop rem).data).map String.mk
      sign ++ (if rem > 0 then integerPart.take rem ++ "," else "")
        ++ String.intercalate "," groups
        ++ (match parts with
            | _ :: p1 :: _ => "." ++ p1
            | _ => "")

/-- Fixed-point rendering of an exact rational at `decimals` places,
modelling `(*big.Float).Text('f', decimals)` (rounding to nearest;
the tie-breaking mode of big.Float is immaterial to the claims). -/
def bigFloatText (q : Rat) (decimals : Nat) : String :=
  let scale : Int := (10 : Int) ^ decimals
  let n : Int := round (|q| * (scale : Rat))
  let ip := n / scale
  let fp := (n % scale).toNat
  let sign := if q < 0 then "-" else ""
  if decimals = 0 then sign ++ toString ip
  else
    let fs := toString fp
    sign ++ toString ip ++ "." ++
      String.mk (List.replicate (decimals - fs.length) (Char.ofNat 48)) ++ fs

/-- Embedding of `utils.FormatBigFloat`: a nil big.Float renders as "0",
otherwise the fixed-point text is grouped with commas. -/
def FormatBigFloat (f : Option Rat) (decimals : Nat) : String :=
  match f with
  | none => "0"
  | some q => AddCommas (bigFloatText q decimals)

/-- Embedding of `utils.BigFloatToFloat64`: a nil big.Float converts to 0,
otherwise the value itself (the lossy float64 conversion is modelled by
the exact value; only the nil branch is at issue in the claims). -/
def BigFloatToFloat64 (f : Option Rat) : Rat :=
  match f with
  | none => 0
  | some q => q

/-! ### RPC cooldown marking (src/main.go, `markFailedRPCs`) -/

/-- Five minutes as a Go `time.Duration` (nanoseconds). -/
def fiveMinutes : Int := 5 * 60 * 1000000000

/-- Embedding of `model.markFailedRPCs`: every reported URL gets a
cooldown expiry of now + 5 minutes in the cooldown table. -/
def markFailedRPCs (cooldowns : String → Option Int) (now : Int)
    (rpcs : List String) : String → Option Int :=
  let expiry := now + fiveMinutes
  rpcs.foldl (fun m r => fun u => if u = r then some expiry else m u) cooldowns

/-! ### RPC latency measurement (src/main.go, `Update` case rpcLatencyMsg) -/

/-- Error sentinel stored for a failed latency probe (`-1` as a
`time.Duration`). -/
def errSentinel : Int := -1

/-- Message delivered by a latency probe (`rpcLatencyMsg`): the URL, the
measured duration, and whether the probe failed. -/
structure RpcLatencyMsg where
  rpcURL : String
  latency : Int
  err : Bool

/-- The RPC health state touched by the latency handler: last latency per
URL and the rolling history per URL. -/
structure RpcHealth where
  rpcLatencies : String → Option Int
  rpcLatencyHistory : String → List Int

/-- Embedding of the `rpcLatencyMsg` case of `model.Update`: record the
measurement (or the error sentinel) as the last latency, append it to the
URL's history, and truncate the history to its most recent 15 entries. -/
def updateRpcLatency (st : RpcHealth) (msg : RpcLatencyMsg) : RpcHealth :=
  let val := if msg.err then errSentinel else msg.latency
  let lat := fun u => if u = msg.rpcURL then some val else st.rpcLatencies u
  let hist0 := st.rpcLatencyHistory msg.rpcURL ++ [val]
  let hist := if hist0.length > 15 then hist0.drop (hist0.length - 15) else hist0
  { rpcLatencies := lat,
    rpcLatencyHistory := fun u => if u = msg.rpcURL then hist else st.rpcLatencyHistory u }

/-! ### Data model (src/pkg/models/models.go) -/

/-- Embedding of `models.Transaction`. -/
structure Transaction where
  Hash : String
  From : String
  To : String
  Value : String
  BlockNumber : Nat
  GasLimit : Nat
  GasPrice : String
  Nonce : Nat
deriving DecidableEq

/-- Embedding of `models.AccountChainData`: the fetched data for one
address on one chain.  `balance` and `balance24h` are `*big.Float`
pointers (nullable); `tokenBalances` is a map keyed by token symbol. -/
structure AccountChainData where
  address : String
  balance : Option Rat
  balance24h : Option Rat
  tokenBalances : String → Option (Option Rat)

/-- Embedding of `models.ChainData`: the result of a bulk fetch. -/
structure ChainData where
  chainName : String
  results : List AccountChainData
  failedRPCs : List String
  errData : Option String

/-- Embedding of `models.Account` (and the equivalent `accountState` of
src/main.go): the per-address snapshot.  Maps keyed by chain name are
total functions into `Option`; the inner token map is curried (the
nil-map write guards of the Go code are no-ops in this model). -/
structure Account where
  address : String
  name : String
  balances : String → Option (Option Rat)
  tokenBalances : String → String → Option (Option Rat)
  balances24h : String → Option (Option Rat)
  errors : String → Option String
  transactions : List Transaction

/-- Embedding of `models.PriceData` (without its error field; a fetch
error is carried by the surrounding `Except`). -/
structure PriceData where
  coinID : String
  price : Rat

/-- Embedding of `models.GasPriceData` (price in wei). -/
structure GasPriceData where
  price : Int

/-! ### Snapshot merge (src/pkg/watcher/events.go `updateAccountsWithChainData`
and src/main.go `Update` case chainDataMsg) -/

/-- Update the first account of the list satisfying `p` (the Go pattern
`for ... { if match { mutate; break } }`). -/
def updateFirstAccount (accs : List Account) (p : Account → Bool)
    (f : Account → Account) : List Account :=
  match accs with
  | [] => []
  | a :: rest => if p a then f a :: rest else a :: updateFirstAccount rest p f

/-- The per-account mutation performed by the watcher's
`updateAccountsWithChainData`: overwrite `balances[chain]`,
`balances24h[chain]` and every token entry listed in the result.
The `errors` map is not touched by this function. -/
def applyResultWatcher (chainName : String) (res : AccountChainData)
    (acc : Account) : Account :=
  { acc with
    balances := fun c => if c = chainName then some res.balance else acc.balances c,
    balances24h := fun c =>
      if c = chainName then some res.balance24h else acc.balances24h c,
    tokenBalances := fun c s =>
      if c = chainName then
        match res.tokenBalances s with
        | some b => some b
        | none => acc.tokenBalances c s
      else acc.tokenBalances c s }

/-- Embedding of `Watcher.updateAccountsWithChainData`
(src/pkg/watcher/events.go:256): for each result, the FIRST account whose
address is equal to the result's address under Go `==` (case-SENSITIVE
string equality) is overwritten; `errors` is left untouched. -/
def updateAccountsWithChainData (accounts : List Account) (data : ChainData) :
    List Account :=
  data.results.foldl
    (fun accs res =>
      updateFirstAccount accs (fun acc => acc.address == res.address)
        (applyResultWatcher data.chainName res))
    accounts

/-- The per-account mutation performed by the `chainDataMsg` case of
`model.Update` (src/main.go:1402): the same overwrites as the watcher
version, plus `delete(acc.errors, chainName)`. -/
def applyResultMain (chainName : String) (res : AccountChainData)
    (acc : Account) : Account :=
  { applyResultWatcher chainName res acc with
    errors := fun c => if c = chainName then none else acc.errors c }

/-- Embedding of the result-merging loop of the `chainDataMsg` case of
`model.Update` (src/main.go:1402-1432): for each result, the FIRST
account matching by `strings.EqualFold` (case-insensitive) is
overwritten and its `errors[chainName]` entry is deleted. -/
def mergeChainDataMain (accounts : List Account) (chainName : String)
    (results : List AccountChainData) : List Account :=
  results.foldl
    (fun accs res =>
      updateFirstAccount accs (fun acc => foldEq acc.address res.address)
        (applyResultMain chainName res))
    accounts

/-! ### Event bus (src/pkg/watcher/events.go `Subscribe` / `notify`) -/

/-- Embedding of `watcher.EventType`. -/
inductive EventType where
  | priceUpdated
  | chainDataUpdated
  | gasPriceUpdated
  | transactionsUpdated
  | statusUpdated
deriving DecidableEq

/-- Payload of an event (`Event.Data`, an `interface{}` in Go). -/
inductive EventData where
  | price (d : PriceData)
  | chain (d : ChainData)
  | gas (d : GasPriceData)
  | txs (address : String) (list : List Transaction)

/-- Embedding of `watcher.Event`. -/
structure Event where
  etype : EventType
  data : EventData

/-- A subscriber channel: a bounded buffer.  `capacity` models the
channel capacity fixed at `make`; `buffer` the queued events. -/
structure Subscriber where
  capacity : Nat
  buffer : List Event

/-- Embedding of `Watcher.Subscribe`: create a channel of capacity 100 and
append it to the subscriber list; returns the new list and the channel. -/
def subscribeGo (subs : List Subscriber) : List Subscriber × Subscriber :=
  let ch : Subscriber := ⟨100, []⟩
  (subs ++ [ch], ch)

/-- Embedding of `Watcher.notify`: a non-blocking send to every
subscriber; a subscriber whose buffer is at capacity is skipped (the
`select { case sub <- event: default: }` drop), and the list itself is
not modified. -/
def notifyGo (subs : List Subscriber) (e : Event) : List Subscriber :=
  subs.map (fun sub =>
    if sub.buffer.length < sub.capacity
    then ⟨sub.capacity, sub.buffer ++ [e]⟩
    else sub)

/-! ### Scheduler tasks (src/pkg/watcher/events.go `fetchAll`)

Each goroutine body launched by `fetchAll` is embedded as a function of
the watcher snapshot and of the data-source call's outcome.  The watcher
snapshot is `prices`, `gasPrices` and `accounts` guarded by `w.mu`. -/

/-- The snapshot state of `watcher.Watcher` touched by `fetchAll`. -/
structure WatcherSt where
  prices : String → Option Rat
  gasPrices : String → Option Int
  accounts : List Account

/-- Embedding of the price goroutine of `fetchAll`: on success write
`prices[coinID]` and publish one `EventPriceUpdated`; on error do
nothing.  Returns the new snapshot and the published events. -/
def priceTask (st : WatcherSt) (coinID : String)
    (result : Except String PriceData) : WatcherSt × List Event :=
  match result with
  | .error _ => (st, [])
  | .ok data =>
      ({ st with
          prices := fun id => if id = coinID then some data.price else st.prices id },
        [⟨EventType.priceUpdated, EventData.price data⟩])

/-- Embedding of the chain-data goroutine of `fetchAll`: on success merge
into the accounts and publish one `EventChainDataUpdated`; on error do
nothing. -/
def chainDataTask (st : WatcherSt) (result : Except String ChainData) :
    WatcherSt × List Event :=
  match result with
  | .error _ => (st, [])
  | .ok data =>
      ({ st with accounts := updateAccountsWithChainData st.accounts data },
        [⟨EventType.chainDataUpdated, EventData.chain data⟩])

/-- Embedding of the gas-price goroutine of `fetchAll`: on success write
`gasPrices[chainName]` and publish one `EventGasPriceUpdated`; on error
do nothing. -/
def gasPriceTask (st : WatcherSt) (chainName : String)
    (result : Except String GasPriceData) : WatcherSt × List Event :=
  match result with
  | .error _ => (st, [])
  | .ok data =>
      ({ st with
          gasPrices := fun c => if c = chainName then some data.price else st.gasPrices c },
        [⟨EventType.gasPriceUpdated, EventData.gas data⟩])

/-- Embedding of the per-address transactions goroutine of `fetchAll`: on
success replace the matching account's transaction list and publish one
`EventTransactionsUpdated`; on error do nothing.  (The `failedRPCs`
return of the data source is discarded by this goroutine, as in the Go
code.) -/
def txTask (st : WatcherSt) (address : String)
    (result : Except String (List Transaction)) : WatcherSt × List Event :=
  match result with
  | .error _ => (st, [])
  | .ok txs =>
      ({ st with
          accounts := updateFirstAccount st.accounts
            (fun a => a.address == address)
            (fun a => { a with transactions := txs }) },
        [⟨EventType.transactionsUpdated, EventData.txs address txs⟩])

/-! ### Generic form of the merge loops

Both merge loops above are folds of "update the first account whose
address matches" steps; `mergeFold` abstracts them over the address
comparison `E` and the per-account mutation `f`, and `chainApply` is the
corresponding per-account composition used to reason pointwise. -/

/-- The common shape of both merge loops: fold the results, updating for
each result the first account whose address matches under `E`. -/
def mergeFold (E : String → String → Bool)
    (f : AccountChainData → Account → Account)
    (accounts : List Account) (rs : List AccountChainData) : List Account :=
  rs.foldl
    (fun accs res =>
      updateFirstAccount accs (fun acc => E acc.address res.address) (f res))
    accounts

/-- Pointwise composition of the matching updates of a result list on one
account. -/
def chainApply (E : String → String → Bool)
    (f : AccountChainData → Account → Account)
    (rs : List AccountChainData) (a : Account) : Account :=
  rs.foldl (fun x r => if E x.address r.address then f r x else x) a

/-! ### RPC prioritization (src/main.go, `getPrioritizedRPCs`) -/

/-- Whether a URL is in active cooldown at `now` (the
`expiry, ok := m.rpcCooldowns[u]; ok && now.Before(expiry)` test). -/
def inCooldown (cooldowns : String → Option Int) (now : Int) (u : String) : Bool :=
  match cooldowns u with
  | some expiry => decide (now < expiry)
  | none => false

/-- The strict comparator closure passed to `sort.SliceStable` in
`getPrioritizedRPCs`.  A Go map read `latI, okI := m.rpcLatencies[u]`
yields the zero duration on a missing key, so `okI && latI > 0` is
equivalent to `0 < (lat u).getD 0`, and `okI && latI < 0` to
`(lat u).getD 0 < 0`. -/
def rpcLess (lat : String → Option Int) (i j : String) : Bool :=
  let latI := (lat i).getD 0
  let latJ := (lat j).getD 0
  let validI := decide (0 < latI)
  let validJ := decide (0 < latJ)
  if validI && !validJ then true
  else if !validI && validJ then false
  else if validI && validJ then decide (latI < latJ)
  else
    let isErrI := decide (latI < 0)
    let isErrJ := decide (latJ < 0)
    if !isErrI && isErrJ then true else false

/-- Embedding of `model.getPrioritizedRPCs`: partition the URLs into
healthy and cooling (one pass in Go, two filters here), shuffle the
healthy bucket, stable-sort it by the latency comparator, shuffle the
cooling bucket, and append.  The two `rand.Shuffle` calls are modelled by
the permutation parameters `shuffleH` and `shuffleC`; `sort.SliceStable`
by the stable `List.mergeSort` with the non-strict comparator
`le a b := !(less b a)` derived from the Go less-closure, which is the
ordering contract of a stable sort. -/
def getPrioritizedRPCs (cooldowns : String → Option Int)
    (lat : String → Option Int) (now : Int)
    (shuffleH shuffleC : List String → List String)
    (urls : List String) : List String :=
  let healthy := urls.filter (fun u => !(inCooldown cooldowns now u))
  let cooldown := urls.filter (fun u => inCooldown cooldowns now u)
  let healthy2 := (shuffleH healthy).mergeSort (fun a b => !(rpcLess lat b a))
  healthy2 ++ shuffleC cooldown

/-! ### Per-chain bulk fetch (src/pkg/rpc/rpc.go `FetchChainData`,
`fetchAccountData`, `fetchTokenBalanceInternal`; src/main.go
`fetchChainData`)

The EVM client is an oracle: deterministic per (URL, address) outcomes.
Timeouts, contexts and the worker pool of main.go are not modelled (the
pool partitions the same per-address outcomes; its only observable
nondeterminism is the order of the per-URL result list). -/

/-- Embedding of `config.TokenConfig` (the fields the fetch reads). -/
structure TokenConfig where
  symbol : String
  address : String
  decimals : Nat
deriving DecidableEq

/-- Embedding of `config.ChainConfig` (the fields the fetch reads). -/
structure ChainConfig where
  name : String
  rpcURLs : List String
  tokens : List TokenConfig

/-- Oracle for one open RPC client (`ethclient.Client`). -/
structure EthClient where
  balanceAt : String → Except String Int
  balanceAtOld : String → Except String Int
  callContract : String → List Nat → Except String (List Nat)

/-- Oracle for the RPC fleet: per-URL dial outcome and client.  (In
main.go the post-dial head-header read is a further per-URL failure; it
is folded into `dialErr`, which models "the URL is unusable".) -/
structure RpcEnv where
  dialErr : String → Option String
  client : String → EthClient

/-- Whether an `Except` outcome is an error (`err != nil`). -/
def isErrExc {α : Type} (x : Except String α) : Bool :=
  match x with
  | .error _ => true
  | .ok _ => false

/-- Big-endian bytes to a natural number (`new(big.Int).SetBytes`). -/
def bytesToNat (l : List Nat) : Nat :=
  l.foldl (fun acc b => acc * 256 + b) 0

/-- The `balanceOf(address)` calldata as built by the Go code
(`fetchTokenBalanceInternal`): 4 selector bytes 0x70a08231, then the
20-byte account LEFT-padded with 12 zero bytes to a 32-byte word
(`copy(data[4+12:], account.Bytes())` into a zeroed 36-byte buffer). -/
def erc20BalanceOfCalldata (accountBytes : List Nat) : List Nat :=
  [0x70, 0xa0, 0x82, 0x31] ++ List.replicate 12 0 ++ accountBytes

/-- Modelled from the spec's words: the calldata layout asserted by the
claim, the selector followed by the address RIGHT-padded with zeros to
32 bytes.  Defined only for comparison with the code's layout. -/
def erc20BalanceOfCalldataClaim (accountBytes : List Nat) : List Nat :=
  [0x70, 0xa0, 0x82, 0x31] ++ accountBytes ++ List.replicate 12 0

/-- Embedding of `fetchTokenBalanceInternal` (identical in rpc.go and
main.go): issue the balanceOf contract call and scale the big-endian
result by 10^decimals.  `accountBytes` models `account.Bytes()`. -/
def fetchTokenBalanceInternal (client : EthClient) (token : TokenConfig)
    (accountBytes : List Nat) : Except String Rat :=
  let data := erc20BalanceOfCalldata accountBytes
  match client.callContract token.address data with
  | .error e => .error e
  | .ok result =>
      .ok ((bytesToNat result : Rat) / (10 : Rat) ^ token.decimals)

/-- The token loop of `rpc.fetchAccountData`: the FIRST failing token
call aborts the whole per-address fetch (`return nil, err`). -/
def fetchTokensLoop (client : EthClient) (accountBytes : List Nat)
    (tokens : List TokenConfig) (m : String → Option (Option Rat)) :
    Except String (String → Option (Option Rat)) :=
  match tokens with
  | [] => .ok m
  | t :: rest =>
      match fetchTokenBalanceInternal client t accountBytes with
      | .error e => .error e
      | .ok b =>
          fetchTokensLoop client accountBytes rest
            (fun s => if s = t.symbol then some (some b) else m s)

/-- Embedding of `rpc.fetchAccountData`: native balance (scaled by 1e18),
then every configured token; any failure fails the address.  The
historical balance is left nil, as in the source (`fBalance24h` is never
assigned).  `addrBytes` models `common.HexToAddress(address).Bytes()`. -/
def fetchAccountData (client : EthClient) (addrBytes : String → List Nat)
    (chain : ChainConfig) (address : String) :
    Except String AccountChainData :=
  match client.balanceAt address with
  | .error e => .error e
  | .ok balance =>
      match fetchTokensLoop client (addrBytes address) chain.tokens
          (fun _ => none) with
      | .error e => .error e
      | .ok tb =>
          .ok { address := address,
                balance := some ((balance : Rat) / 1000000000000000000),
                balance24h := none,
                tokenBalances := tb }

/-- The state threaded through the URL loop of `FetchChainData`. -/
structure FetchSt where
  results : List AccountChainData
  failed : List String
  lastErr : Option String
  pending : List String

/-- The state of the per-URL inner loop over pending addresses. -/
structure InnerSt where
  results : List AccountChainData
  nextPending : List String
  lastErr : Option String
  rpcHasFailure : Bool

/-- The inner loop of `FetchChainData` on one URL: try each pending
address; a success is appended to the results, a failure re-pends the
address, records the error and marks the URL as having failed. -/
def processPending (f : String → Except String AccountChainData) :
    List String → InnerSt → InnerSt
  | [], st => st
  | addr :: rest, st =>
      match f addr with
      | .error e =>
          processPending f rest
            { st with nextPending := st.nextPending ++ [addr],
                      lastErr := some e, rpcHasFailure := true }
      | .ok r => processPending f rest { st with results := st.results ++ [r] }

/-- The URL loop of `FetchChainData` (and of main.go `fetchChainData`),
generic in the per-(URL, address) fetch: break when nothing is pending;
on a dial failure record the URL and keep all addresses pending; else
run the inner loop and record the URL iff it had any failure. -/
def fetchChainLoop (fetch : String → String → Except String AccountChainData)
    (dialErr : String → Option String) (urls : List String)
    (st : FetchSt) : FetchSt :=
  match urls with
  | [] => st
  | url :: rest =>
      if st.pending.isEmpty then st
      else
        match dialErr url with
        | some e =>
            fetchChainLoop fetch dialErr rest
              { st with failed := st.failed ++ [url], lastErr := some e }
        | none =>
            let inner := processPending (fetch url) st.pending
              ⟨st.results, [], st.lastErr, false⟩
            fetchChainLoop fetch dialErr rest
              { results := inner.results,
                failed := if inner.rpcHasFailure then st.failed ++ [url]
                  else st.failed,
                lastErr := inner.lastErr,
                pending := inner.nextPending }

/-- The shared shell of the bulk fetch: run the URL loop from the full
address list and nil accumulators, and null the terminal error iff no
address is left pending (`if len(pendingAddresses) == 0 { lastErr = nil }`). -/
def FetchChainDataWith
    (fetch : String → String → Except String AccountChainData)
    (dialErr : String → Option String) (chain : ChainConfig)
    (addresses : List String) : ChainData :=
  let st := fetchChainLoop fetch dialErr chain.rpcURLs
    ⟨[], [], none, addresses⟩
  { chainName := chain.name,
    results := st.results,
    failedRPCs := st.failed,
    errData := if st.pending.isEmpty then none else st.lastErr }

/-- Embedding of `rpc.FetchChainData`: the URL loop with
`fetchAccountData` per pending address.  (`addresses` stands for the
`acc.Address` projection of the accounts argument.) -/
def FetchChainData (env : RpcEnv) (addrBytes : String → List Nat)
    (chain : ChainConfig) (addresses : List String) : ChainData :=
  FetchChainDataWith
    (fun url addr => fetchAccountData (env.client url) addrBytes chain addr)
    env.dialErr chain addresses

/-- Characterization used by C3: whether, during the run of the URL loop
from the given pending set, the URL `u` is attempted with a non-empty
pending set and either fails to dial or has at least one pending address
fail on it.  It mirrors the loop's control flow over the same
`processPending` step. -/
def anyFailureOn (fetch : String → String → Except String AccountChainData)
    (dialErr : String → Option String) (urls pending : List String)
    (u : String) : Bool :=
  match urls with
  | [] => false
  | url :: rest =>
      if pending.isEmpty then false
      else
        match dialErr url with
        | some _ => (url == u) || anyFailureOn fetch dialErr rest pending u
        | none =>
            let inner := processPending (fetch url) pending ⟨[], [], none, false⟩
            ((url == u) && inner.rpcHasFailure) ||
              anyFailureOn fetch dialErr rest inner.nextPending u

/-- Embedding of the 3-attempt native-balance retry loop of the main.go
worker (`for i := 0; i < 3; i++ { ... BalanceAt ... }`).  The client is
deterministic, so every retry observes the same outcome; backoff timing
and context cancellation are not modelled. -/
def retryBalanceAt (client : EthClient) (addr : String) :
    Nat → Except String Int
  | 0 => client.balanceAt addr
  | n + 1 =>
      match client.balanceAt addr with
      | .ok b => .ok b
      | .error e =>
          match n with
          | 0 => .error e
          | _ + 1 => retryBalanceAt client addr n

/-- Embedding of the per-address worker body of main.go
`fetchChainData`: native balance with 3 retries; best-effort 24h-ago
balance; and for each token `if err == nil { ... }` — a failing token
call is silently SKIPPED, the address still succeeds and the token's
entry is simply absent. -/
def mainFetchAccount (client : EthClient) (addrBytes : String → List Nat)
    (tokens : List TokenConfig) (addr : String) :
    Except String AccountChainData :=
  match retryBalanceAt client addr 3 with
  | .error e => .error e
  | .ok bal =>
      let fBal24 : Option Rat :=
        match client.balanceAtOld addr with
        | .ok b => some ((b : Rat) / 1000000000000000000)
        | .error _ => none
      let tb := tokens.foldl
        (fun m t =>
          match fetchTokenBalanceInternal client t (addrBytes addr) with
          | .ok b => fun s => if s = t.symbol then some (some b) else m s
          | .error _ => m)
        (fun _ => none)
      .ok { address := addr,
            balance := some ((bal : Rat) / 1000000000000000000),
            balance24h := fBal24,
            tokenBalances := tb }

/-- Embedding of main.go `fetchChainData`: the same URL loop with the
main.go worker body per address. -/
def mainFetchChainData (env : RpcEnv) (addrBytes : String → List Nat)
    (chain : ChainConfig) (addresses : List String) : ChainData :=
  FetchChainDataWith
    (fun url addr => mainFetchAccount (env.client url) addrBytes chain.tokens addr)
    env.dialErr chain addresses

/-! ### Transaction scanner (src/pkg/rpc/rpc.go `FetchTransactions`)

Addresses are modelled by their canonical (parsed) form: ASCII-lowercased
hex strings.  `common.HexToAddress` folds hex-digit case, so parsing is
modelled by `asciiLower`; `(common.Address).Hex()` returns an EIP-55
checksummed string that differs from the canonical form only in letter
case, so it is modelled by a parameter `hexRender` assumed to satisfy
`asciiLower (hexRender a) = asciiLower a` and `hexRender a ≠ "Contract"`
(a real `Hex()` string always begins with "0x"). -/

/-- One transaction of a scanned block, as the scanner reads it: the
recovered sender is `none` when `types.Sender` fails (the tx is then
skipped); `to` is `none` for contract creation. -/
structure TxData where
  hash : String
  sender : Option String
  toAddr : Option String
  value : Int
  gas : Nat
  gasPrice : Int
  nonce : Nat

/-- A block as read by `BlockByNumber`. -/
structure Block where
  number : Nat
  txs : List TxData

/-- Oracle for one dialled client in the transaction scanner. -/
structure TxClient where
  headNumber : Except String Int
  chainId : Except String Int
  blockByNumber : Int → Except String Block

/-- Oracle for the scanner's RPC fleet. -/
structure TxEnv where
  dialErr : String → Option String
  client : String → TxClient

/-- Construction of one output record in `FetchTransactions`: hex-render
the sender and recipient ("Contract" when there is none), format the
value at the configured decimals and the gas price as "<f2> Gwei".  (The
float64 step of the gas-price formatting is modelled by exact rational
rendering.) -/
def mkTxRecord (hexRender : String → String) (tokenDecimals : Nat)
    (blockNumber : Nat) (txd : TxData) (fromAddr : String) : Transaction :=
  { Hash := txd.hash,
    From := hexRender fromAddr,
    To := match txd.toAddr with
      | some a => hexRender a
      | none => "Contract",
    Value := FormatBigFloat (some ((txd.value : Rat) / 1000000000000000000))
      tokenDecimals,
    BlockNumber := blockNumber,
    GasLimit := txd.gas,
    GasPrice := bigFloatText ((txd.gasPrice : Rat) / 1000000000) 2 ++ " Gwei",
    Nonce := txd.nonce }

/-- The inner loop over one block's transactions: stop at 5 records; skip
a transaction whose sender cannot be recovered; keep it when the sender
or the (literal) recipient equals the target address. -/
def scanBlockTxs (hexRender : String → String) (tokenDecimals : Nat)
    (targetAddr : String) (blockNumber : Nat) :
    List TxData → List Transaction → List Transaction
  | [], txs => txs
  | txd :: rest, txs =>
    if txs.length ≥ 5 then txs
    else
      match txd.sender with
      | none => scanBlockTxs hexRender tokenDecimals targetAddr blockNumber rest txs
      | some fromAddr =>
        if txd.toAddr = some targetAddr ∨ fromAddr = targetAddr then
          scanBlockTxs hexRender tokenDecimals targetAddr blockNumber rest
            (txs ++ [mkTxRecord hexRender tokenDecimals blockNumber txd fromAddr])
        else scanBlockTxs hexRender tokenDecimals targetAddr blockNumber rest txs

/-- The loop over the last 10 blocks (`for i := 0; i < 10; i++`), in
descending order from the head: break at 5 records; a failing block read
is remembered in `blockErr` and skipped. -/
def scanBlocksLoop (cl : TxClient) (hexRender : String → String)
    (tokenDecimals : Nat) (targetAddr : String) (head : Int) :
    Nat → Nat → List Transaction → Option String →
      List Transaction × Option String
  | _, 0, txs, blockErr => (txs, blockErr)
  | i, c + 1, txs, blockErr =>
    if txs.length ≥ 5 then (txs, blockErr)
    else
      match cl.blockByNumber (head - i) with
      | .error e =>
          scanBlocksLoop cl hexRender tokenDecimals targetAddr head
            (i + 1) c txs (some e)
      | .ok block =>
          scanBlocksLoop cl hexRender tokenDecimals targetAddr head
            (i + 1) c
            (scanBlockTxs hexRender tokenDecimals targetAddr block.number
              block.txs txs)
            blockErr

/-- The URL loop of `FetchTransactions`: per URL reset the record list,
dial, read head and chain id (failures mark the URL failed and go on),
scan 10 blocks, and return the records unless an error occurred and
nothing was found (then the URL is marked failed and the next is tried). -/
def fetchTransactionsLoop (env : TxEnv) (hexRender : String → String)
    (tokenDecimals : Nat) (addressHex : String) :
    List String → List String → Option String →
      List Transaction × List String × Option String
  | [], failed, lastErr => ([], failed, lastErr)
  | url :: rest, failed, lastErr =>
    match env.dialErr url with
    | some e =>
        fetchTransactionsLoop env hexRender tokenDecimals addressHex rest
          (failed ++ [url]) (some e)
    | none =>
      match (env.client url).headNumber with
      | .error e =>
          fetchTransactionsLoop env hexRender tokenDecimals addressHex rest
            (failed ++ [url]) (some e)
      | .ok head =>
        match (env.client url).chainId with
        | .error e =>
            fetchTransactionsLoop env hexRender tokenDecimals addressHex rest
              (failed ++ [url]) (some e)
        | .ok _ =>
          let targetAddr := asciiLower addressHex
          let scanned := scanBlocksLoop (env.client url) hexRender
            tokenDecimals targetAddr head 0 10 [] none
          if scanned.2 ≠ none ∧ scanned.1 = [] then
            fetchTransactionsLoop env hexRender tokenDecimals addressHex rest
              (failed ++ [url]) scanned.2
          else (scanned.1, failed, none)

/-- Embedding of `rpc.FetchTransactions`. -/
def FetchTransactions (env : TxEnv) (hexRender : String → String)
    (addressHex : String) (rpcURLs : List String) (tokenDecimals : Nat) :
    List Transaction × List String × Option String :=
  fetchTransactionsLoop env hexRender tokenDecimals addressHex rpcURLs [] none

/-! ## Theorems -/

/-! ### String helper lemmas -/

theorem char_toNat_ofNat (n : Nat) (h : n.isValidChar) :
    (Char.ofNat n).toNat = n := by
  simp only [Char.ofNat, h, dif_pos, Char.ofNatAux, Char.toNat, UInt32.toNat]
  simp [BitVec.toNat_ofNatLt]

theorem lowerChar_idem (c : Char) : lowerChar (lowerChar c) = lowerChar c := by
  unfold lowerChar
  by_cases h : 65 ≤ c.toNat ∧ c.toNat ≤ 90
  · rw [if_pos h]
    have hn : (Char.ofNat (c.toNat + 32)).toNat = c.toNat + 32 :=
      char_toNat_ofNat _ (Or.inl (by omega))
    rw [if_neg (by rw [hn]; omega)]
  · rw [if_neg h, if_neg h]

theorem asciiLower_idem (s : String) : asciiLower (asciiLower s) = asciiLower s := by
  unfold asciiLower
  simp [List.map_map, Function.comp_def, lowerChar_idem]

/-! ### C10 : formatting helpers on nil -/

/-- C10: the public formatting helpers are total on nil inputs: for every
decimals value d, `FormatBigFloat nil d` returns the string "0", and
`BigFloatToFloat64 nil` returns 0, with no precondition on the caller. -/
theorem format_helpers_total_on_nil :
    (∀ decimals : Nat, FormatBigFloat none decimals = "0") ∧
    BigFloatToFloat64 none = 0 :=
  ⟨fun _ => rfl, rfl⟩

/-! ### C8 : cooldown marking -/

theorem markFailedRPCs_cons (cooldowns : String → Option Int) (now : Int)
    (r : String) (rest : List String) :
    markFailedRPCs cooldowns now (r :: rest) =
      markFailedRPCs
        (fun u => if u = r then some (now + fiveMinutes) else cooldowns u)
        now rest := rfl

/-- C8: marking a set of failed URLs sets each listed URL's cooldown expiry
to exactly now + 5 minutes and leaves every other URL's entry unchanged. -/
theorem markFailedRPCs_spec (cooldowns : String → Option Int) (now : Int)
    (rpcs : List String) (u : String) :
    (u ∈ rpcs → markFailedRPCs cooldowns now rpcs u = some (now + fiveMinutes)) ∧
    (u ∉ rpcs → markFailedRPCs cooldowns now rpcs u = cooldowns u) := by
  induction rpcs generalizing cooldowns with
  | nil => simp [markFailedRPCs]
  | cons r rest ih =>
    rw [markFailedRPCs_cons]
    constructor
    · intro hmem
      rcases List.mem_cons.mp hmem with h | h
      · by_cases hr : u ∈ rest
        · exact (ih _).1 hr
        · have := (ih (fun v => if v = r then some (now + fiveMinutes)
              else cooldowns v)).2 hr
          rw [this, h, if_pos rfl]
      · exact (ih _).1 h
    · intro hmem
      have hu : u ∉ rest := fun h => hmem (List.mem_cons_of_mem _ h)
      have hr : u ≠ r := fun h => hmem (h ▸ List.mem_cons_self u rest)
      have := (ih (fun v => if v = r then some (now + fiveMinutes)
          else cooldowns v)).2 hu
      rw [this, if_neg hr]

/-- Witness for C8 at a concrete input: marking ["a", "b"] updates "a"
and leaves the unrelated URL "c" untouched. -/
theorem markFailedRPCs_spec_witness :
    markFailedRPCs (fun _ => none) 0 ["a", "b"] "a" = some (0 + fiveMinutes) ∧
    markFailedRPCs (fun _ => none) 0 ["a", "b"] "c" = none := by
  refine ⟨(markFailedRPCs_spec (fun _ => none) 0 ["a", "b"] "a").1 (by decide), ?_⟩
  have h := (markFailedRPCs_spec (fun _ => none) 0 ["a", "b"] "c").2 (by decide)
  simpa using h

/-! ### C9 : latency history -/

theorem getLast?_drop_of_lt {α : Type} (l : List α) (n : Nat) (h : n < l.length) :
    (l.drop n).getLast? = l.getLast? := by
  rw [List.getLast?_eq_getElem?, List.getLast?_eq_getElem?, List.getElem?_drop,
    List.length_drop]
  congr 1
  omega

/-- C9: after a latency update the URL's history has length at most 15 and
is the suffix of most recent measurements in arrival order (length
min(old+1, 15), ending in the new value); a failed probe records the
sentinel -1, which is a present value distinct from every positive
duration; other URLs' entries are unchanged. -/
theorem updateRpcLatency_spec (st : RpcHealth) (msg : RpcLatencyMsg) :
    ((updateRpcLatency st msg).rpcLatencyHistory msg.rpcURL).length ≤ 15 ∧
    ((updateRpcLatency st msg).rpcLatencyHistory msg.rpcURL).length =
      min ((st.rpcLatencyHistory msg.rpcURL).length + 1) 15 ∧
    List.IsSuffix ((updateRpcLatency st msg).rpcLatencyHistory msg.rpcURL)
      (st.rpcLatencyHistory msg.rpcURL ++
        [if msg.err then errSentinel else msg.latency]) ∧
    ((updateRpcLatency st msg).rpcLatencyHistory msg.rpcURL).getLast? =
      some (if msg.err then errSentinel else msg.latency) ∧
    (updateRpcLatency st msg).rpcLatencies msg.rpcURL =
      some (if msg.err then errSentinel else msg.latency) ∧
    (msg.err = true →
      (updateRpcLatency st msg).rpcLatencies msg.rpcURL = some errSentinel) ∧
    errSentinel < 0 ∧ (∀ d : Int, 0 < d → errSentinel ≠ d) ∧
    (∀ u, u ≠ msg.rpcURL →
      (updateRpcLatency st msg).rpcLatencyHistory u = st.rpcLatencyHistory u ∧
      (updateRpcLatency st msg).rpcLatencies u = st.rpcLatencies u) := by
  set val := if msg.err then errSentinel else msg.latency with hval
  set old := st.rpcLatencyHistory msg.rpcURL with hold
  have hhist : (updateRpcLatency st msg).rpcLatencyHistory msg.rpcURL =
      (if (old ++ [val]).length > 15
        then (old ++ [val]).drop ((old ++ [val]).length - 15)
        else (old ++ [val])) := by
    simp [updateRpcLatency, hval, hold]
  have hlen0 : (old ++ [val]).length = old.length + 1 := by simp
  refine ⟨?_, ?_, ?_, ?_, ?_, ?_, by norm_num [errSentinel], ?_, ?_⟩
  · rw [hhist]
    split <;> simp_all <;> omega
  · rw [hhist]
    split <;> simp_all <;> omega
  · rw [hhist]
    split
    · exact List.drop_suffix _ _
    · exact List.suffix_refl _
  · rw [hhist]
    split
    · rw [getLast?_drop_of_lt _ _ (by simp; omega)]
      simp
    · simp
  · simp [updateRpcLatency, hval]
  · intro he
    simp [updateRpcLatency, hval, he]
  · intro d hd
    simp only [errSentinel]
    omega
  · intro u hu
    constructor <;> simp [updateRpcLatency, hu]

/-- Witness for C9 at a concrete input: a failing probe on a URL with a
full history of 15 entries keeps the length at 15, appends the sentinel,
and leaves another URL untouched. -/
theorem updateRpcLatency_spec_witness :
    ((updateRpcLatency
        ⟨fun _ => none, fun u => if u = "a" then List.replicate 15 7 else []⟩
        ⟨"a", 0, true⟩).rpcLatencyHistory "a").length ≤ 15 ∧
    (updateRpcLatency
        ⟨fun _ => none, fun u => if u = "a" then List.replicate 15 7 else []⟩
        ⟨"a", 0, true⟩).rpcLatencies "a" = some errSentinel ∧
    errSentinel ≠ 3 ∧
    (updateRpcLatency
        ⟨fun _ => none, fun u => if u = "a" then List.replicate 15 7 else []⟩
        ⟨"a", 0, true⟩).rpcLatencyHistory "b" = [] := by
  obtain ⟨h1, _, _, _, _, h6, _, h8, h9⟩ := updateRpcLatency_spec
    ⟨fun _ => none, fun u => if u = "a" then List.replicate 15 7 else []⟩
    ⟨"a", 0, true⟩
  refine ⟨h1, h6 rfl, h8 3 (by norm_num), ?_⟩
  have hb := (h9 "b" (by decide)).1
  simpa using hb

/-! ### C7 : event bus -/

/-- C7: `Subscribe` returns a buffered sink of capacity exactly 100 (and
appends it to the subscriber list), and `Publish`/`notify` delivers the
event to every subscriber whose buffer is below capacity, drops it for
every subscriber at capacity, and never changes the subscriber list's
membership or length (no subscriber is removed). -/
theorem event_bus_spec (subs : List Subscriber) (e : Event) :
    (subscribeGo subs).2.capacity = 100 ∧
    (subscribeGo subs).2.buffer = [] ∧
    (subscribeGo subs).1 = subs ++ [(subscribeGo subs).2] ∧
    (notifyGo subs e).length = subs.length ∧
    (∀ (i : Nat) (sub : Subscriber), subs[i]? = some sub →
      (sub.buffer.length < sub.capacity →
        (notifyGo subs e)[i]? = some ⟨sub.capacity, sub.buffer ++ [e]⟩) ∧
      (¬ sub.buffer.length < sub.capacity →
        (notifyGo subs e)[i]? = some sub)) := by
  refine ⟨rfl, rfl, rfl, by simp [notifyGo], ?_⟩
  intro i sub hget
  constructor
  · intro hlt
    simp [notifyGo, List.getElem?_map, hget, hlt]
  · intro hge
    simp [notifyGo, List.getElem?_map, hget, hge]

/-- Witness for C7 at a concrete input: one subscriber with room receives
the published event, a full subscriber (capacity 1, one queued event) is
skipped, and the list length is preserved. -/
theorem event_bus_spec_witness :
    (subscribeGo []).2.capacity = 100 ∧
    (notifyGo [⟨100, []⟩, ⟨1, [⟨EventType.statusUpdated, EventData.gas ⟨1⟩⟩]⟩]
        ⟨EventType.gasPriceUpdated, EventData.gas ⟨5⟩⟩).length = 2 ∧
    (notifyGo [⟨100, []⟩, ⟨1, [⟨EventType.statusUpdated, EventData.gas ⟨1⟩⟩]⟩]
        ⟨EventType.gasPriceUpdated, EventData.gas ⟨5⟩⟩)[0]? =
      some ⟨100, [⟨EventType.gasPriceUpdated, EventData.gas ⟨5⟩⟩]⟩ ∧
    (notifyGo [⟨100, []⟩, ⟨1, [⟨EventType.statusUpdated, EventData.gas ⟨1⟩⟩]⟩]
        ⟨EventType.gasPriceUpdated, EventData.gas ⟨5⟩⟩)[1]? =
      some ⟨1, [⟨EventType.statusUpdated, EventData.gas ⟨1⟩⟩]⟩ := by
  obtain ⟨h1, _, _, h4, h5⟩ := event_bus_spec
    [⟨100, []⟩, ⟨1, [⟨EventType.statusUpdated, EventData.gas ⟨1⟩⟩]⟩]
    ⟨EventType.gasPriceUpdated, EventData.gas ⟨5⟩⟩
  refine ⟨h1, h4, ?_, ?_⟩
  · have := (h5 0 ⟨100, []⟩ rfl).1 (by norm_num)
    simpa using this
  · have := (h5 1 ⟨1, [⟨EventType.statusUpdated, EventData.gas ⟨1⟩⟩]⟩ rfl).2
      (by norm_num)
    simpa using this

/-! ### C6 : scheduler task success/failure discipline -/

/-- C6: for every scheduler task launched by `fetchAll` (price fetch,
per-chain data fetch, gas-price fetch, per-address transaction scan): on
a successful data-source call the task writes its result to the snapshot
and publishes exactly one event of the task's kind; on an error result
the task leaves the snapshot unchanged and publishes no event. -/
theorem fetchAll_task_discipline (st : WatcherSt) (coinID chainName address : String) :
    (∀ d, (priceTask st coinID (.ok d)).1.prices coinID = some d.price ∧
      (priceTask st coinID (.ok d)).2 =
        [⟨EventType.priceUpdated, EventData.price d⟩]) ∧
    (∀ e, priceTask st coinID (.error e) = (st, [])) ∧
    (∀ d, (chainDataTask st (.ok d)).1.accounts =
        updateAccountsWithChainData st.accounts d ∧
      (chainDataTask st (.ok d)).2 =
        [⟨EventType.chainDataUpdated, EventData.chain d⟩]) ∧
    (∀ e, chainDataTask st (.error e) = (st, [])) ∧
    (∀ d, (gasPriceTask st chainName (.ok d)).1.gasPrices chainName = some d.price ∧
      (gasPriceTask st chainName (.ok d)).2 =
        [⟨EventType.gasPriceUpdated, EventData.gas d⟩]) ∧
    (∀ e, gasPriceTask st chainName (.error e) = (st, [])) ∧
    (∀ txs, (txTask st address (.ok txs)).1.accounts =
        updateFirstAccount st.accounts (fun a => a.address == address)
          (fun a => { a with transactions := txs }) ∧
      (txTask st address (.ok txs)).2 =
        [⟨EventType.transactionsUpdated, EventData.txs address txs⟩]) ∧
    (∀ e, txTask st address (.error e) = (st, [])) := by
  refine ⟨?_, ?_, ?_, ?_, ?_, ?_, ?_, ?_⟩ <;>
    intro x <;>
    simp [priceTask, chainDataTask, gasPriceTask, txTask]

/-- Witness for C6 at a concrete input: a successful gas fetch writes the
price and emits one gas event; a failed price fetch leaves the snapshot
unchanged and emits nothing. -/
theorem fetchAll_task_discipline_witness :
    (gasPriceTask ⟨fun _ => none, fun _ => none, []⟩ "Eth" (.ok ⟨7⟩)).1.gasPrices
        "Eth" = some 7 ∧
    (gasPriceTask ⟨fun _ => none, fun _ => none, []⟩ "Eth" (.ok ⟨7⟩)).2 =
      [⟨EventType.gasPriceUpdated, EventData.gas ⟨7⟩⟩] ∧
    priceTask ⟨fun _ => none, fun _ => none, []⟩ "ethereum" (.error "boom") =
      (⟨fun _ => none, fun _ => none, []⟩, []) := by
  obtain ⟨_, hperr, _, _, hgas, _, _, _⟩ := fetchAll_task_discipline
    ⟨fun _ => none, fun _ => none, []⟩ "ethereum" "Eth" "0xab"
  exact ⟨(hgas ⟨7⟩).1, (hgas ⟨7⟩).2, hperr "boom"⟩

/-! ### C1 : snapshot merge -/

theorem foldEq_true_iff (x y : String) :
    foldEq x y = true ↔ asciiLower x = asciiLower y := by
  simp [foldEq]

theorem foldEq_symm (x y : String) : foldEq x y = foldEq y x := by
  by_cases h : asciiLower x = asciiLower y
  · simp [foldEq, h]
  · have h2 : asciiLower y ≠ asciiLower x := fun hh => h hh.symm
    simp [foldEq, h, h2]

theorem foldEq_trans (x y z : String) (h1 : foldEq x y = true)
    (h2 : foldEq y z = true) : foldEq x z = true := by
  rw [foldEq_true_iff] at h1 h2 ⊢
  exact h1.trans h2

theorem foldEq_refl (x : String) : foldEq x x = true := by
  simp [foldEq]

theorem eqb_false_of_foldEq_false {x y : String} (h : foldEq x y = false) :
    (x == y) = false := by
  rcases Bool.eq_false_or_eq_true (x == y) with hb | hb
  · exfalso
    have hxy : x = y := by simpa using hb
    rw [hxy, foldEq_refl] at h
    cases h
  · exact hb

theorem eqbString_symm (x y : String) : (x == y) = (y == x) := by
  by_cases h : x = y
  · simp [h]
  · have h2 : ¬ y = x := fun hh => h hh.symm
    simp [h, h2]

theorem eqbString_trans (x y z : String) (h1 : (x == y) = true)
    (h2 : (y == z) = true) : (x == z) = true := by
  simp only [beq_iff_eq] at h1 h2 ⊢
  exact h1.trans h2

theorem updateFirstAccount_eq_map (p : Account → Bool) (f : Account → Account)
    (accs : List Account)
    (h : accs.Pairwise (fun a b => p a = true → p b = false)) :
    updateFirstAccount accs p f = accs.map (fun a => if p a then f a else a) := by
  induction accs with
  | nil => rfl
  | cons a rest ih =>
    rcases List.pairwise_cons.mp h with ⟨hhead, htail⟩
    by_cases hp : p a = true
    · simp only [updateFirstAccount, hp, if_true, List.map_cons]
      congr 1
      have hrest : rest.map (fun b => if p b then f b else b) =
          rest.map (fun b => b) :=
        List.map_congr_left (fun b hb => by simp [hhead b hb hp])
      rw [hrest, List.map_id']
    · have hp' : p a = false := by
        rcases Bool.eq_false_or_eq_true (p a) with h0 | h0
        · exact absurd h0 hp
        · exact h0
      simp only [updateFirstAccount, hp', Bool.false_eq_true, if_false,
        List.map_cons]
      rw [ih htail]

theorem chainApply_cons (E : String → String → Bool)
    (f : AccountChainData → Account → Account)
    (r : AccountChainData) (rest : List AccountChainData) (a : Account) :
    chainApply E f (r :: rest) a =
      chainApply E f rest (if E a.address r.address then f r a else a) := rfl

theorem chainApply_address (E : String → String → Bool)
    (f : AccountChainData → Account → Account)
    (haddr : ∀ r x, (f r x).address = x.address)
    (rs : List AccountChainData) (a : Account) :
    (chainApply E f rs a).address = a.address := by
  induction rs generalizing a with
  | nil => rfl
  | cons r rest ih =>
    rw [chainApply_cons, ih]
    split
    · exact haddr r a
    · rfl

theorem chainApply_errors (E : String → String → Bool)
    (f : AccountChainData → Account → Account)
    (herr : ∀ r x, (f r x).errors = x.errors)
    (rs : List AccountChainData) (a : Account) :
    (chainApply E f rs a).errors = a.errors := by
  induction rs generalizing a with
  | nil => rfl
  | cons r rest ih =>
    rw [chainApply_cons, ih]
    split
    · exact herr r a
    · rfl

theorem chainApply_skip (E : String → String → Bool)
    (f : AccountChainData → Account → Account)
    (rs : List AccountChainData) (a : Account)
    (h : ∀ r ∈ rs, E a.address r.address = false) :
    chainApply E f rs a = a := by
  induction rs with
  | nil => rfl
  | cons r rest ih =>
    have h0 := h r (List.mem_cons_self r rest)
    rw [chainApply_cons, h0]
    simpa using ih fun r2 hr2 => h r2 (List.mem_cons_of_mem _ hr2)

theorem chainApply_match (E : String → String → Bool)
    (f : AccountChainData → Account → Account)
    (hsymm : ∀ x y, E x y = E y x)
    (htrans : ∀ x y z, E x y = true → E y z = true → E x z = true)
    (haddr : ∀ r x, (f r x).address = x.address)
    (rs : List AccountChainData) (a : Account) (res : AccountChainData)
    (hres : res ∈ rs) (hm : E a.address res.address = true)
    (hR : (rs.map (fun r => r.address)).Pairwise (fun x y => E x y = false)) :
    chainApply E f rs a = f res a := by
  induction rs generalizing a with
  | nil => cases hres
  | cons r rest ih =>
    rw [List.map_cons, List.pairwise_cons] at hR
    obtain ⟨hhead, htail⟩ := hR
    rcases List.mem_cons.mp hres with heq | hmem
    · cases heq
      rw [chainApply_cons, hm]
      simp only [if_true]
      apply chainApply_skip
      intro r2 hr2
      rw [haddr res a]
      rcases Bool.eq_false_or_eq_true (E a.address r2.address) with hc | hc
      · exfalso
        have h1 : E res.address a.address = true := by rw [hsymm]; exact hm
        have h2 : E res.address r2.address = true := htrans _ _ _ h1 hc
        have h3 := hhead r2.address (List.mem_map_of_mem _ hr2)
        rw [h3] at h2
        cases h2
      · exact hc
    · have hEr : E a.address r.address = false := by
        rcases Bool.eq_false_or_eq_true (E a.address r.address) with hc | hc
        · exfalso
          have h1 : E r.address a.address = true := by rw [hsymm]; exact hc
          have h2 : E r.address res.address = true := htrans _ _ _ h1 hm
          have h3 := hhead res.address (List.mem_map_of_mem _ hmem)
          rw [h3] at h2
          cases h2
        · exact hc
      rw [chainApply_cons, hEr]
      simpa using ih _ hmem hm htail

theorem mergeFold_eq_map (E : String → String → Bool)
    (f : AccountChainData → Account → Account)
    (hsymm : ∀ x y, E x y = E y x)
    (htrans : ∀ x y z, E x y = true → E y z = true → E x z = true)
    (haddr : ∀ r x, (f r x).address = x.address)
    (rs : List AccountChainData) (accounts : List Account)
    (hA : (accounts.map (fun a => a.address)).Pairwise (fun x y => E x y = false)) :
    mergeFold E f accounts rs = accounts.map (chainApply E f rs) := by
  induction rs generalizing accounts with
  | nil =>
    have h0 : accounts.map (chainApply E f []) = accounts.map (fun a => a) :=
      List.map_congr_left (fun a _ => rfl)
    simp [mergeFold, h0]
  | cons r rest ih =>
    have hfold : mergeFold E f accounts (r :: rest) =
        mergeFold E f
          (updateFirstAccount accounts (fun acc => E acc.address r.address)
            (f r)) rest := rfl
    have hA2 := List.pairwise_map.mp hA
    have hone : accounts.Pairwise
        (fun a b => E a.address r.address = true → E b.address r.address = false) := by
      refine hA2.imp ?_
      intro a b hab hma
      rcases Bool.eq_false_or_eq_true (E b.address r.address) with hc | hc
      · exfalso
        have h1 : E a.address b.address = true :=
          htrans _ _ _ hma (by rw [hsymm]; exact hc)
        rw [hab] at h1
        cases h1
      · exact hc
    rw [hfold, updateFirstAccount_eq_map _ _ _ hone]
    have haddrg : ∀ a : Account,
        ((fun a => if E a.address r.address then f r a else a) a).address
          = a.address := by
      intro a
      by_cases hc : E a.address r.address = true
      · simp only [hc, if_true]
        exact haddr r a
      · rcases Bool.eq_false_or_eq_true (E a.address r.address) with hc2 | hc2
        · exact absurd hc2 hc
        · simp [hc2]
    have hA3 : ((accounts.map
          (fun a => if E a.address r.address then f r a else a)).map
          (fun a => a.address)).Pairwise (fun x y => E x y = false) := by
      rw [List.map_map]
      have hsame : accounts.map
          ((fun a : Account => a.address) ∘
            (fun a => if E a.address r.address then f r a else a)) =
          accounts.map (fun a => a.address) :=
        List.map_congr_left (fun a _ => haddrg a)
      rw [hsame]
      exact hA
    rw [ih _ hA3, List.map_map]
    exact List.map_congr_left (fun a _ => rfl)

theorem updateAccountsWithChainData_eq (accounts : List Account)
    (data : ChainData) :
    updateAccountsWithChainData accounts data =
      mergeFold (fun x y => x == y) (applyResultWatcher data.chainName)
        accounts data.results := rfl

theorem mergeChainDataMain_eq (accounts : List Account) (chainName : String)
    (results : List AccountChainData) :
    mergeChainDataMain accounts chainName results =
      mergeFold foldEq (applyResultMain chainName) accounts results := rfl

theorem applyResultWatcher_address (c : String) (res : AccountChainData)
    (a : Account) : (applyResultWatcher c res a).address = a.address := rfl

theorem applyResultMain_address (c : String) (res : AccountChainData)
    (a : Account) : (applyResultMain c res a).address = a.address := rfl

theorem applyResultWatcher_errors (c : String) (res : AccountChainData)
    (a : Account) : (applyResultWatcher c res a).errors = a.errors := rfl

/-- C1 counterexample: the claim is false of the watcher's
`updateAccountsWithChainData`.  With one account at address "0xAB" (with
a recorded error for chain "Eth") and one result at the case-variant
address "0xab", the addresses are EqualFold-equal but the account is not
located (its balance stays absent); and even with an exactly matching
account, the merge leaves the `errors["Eth"]` entry present, while the
claim requires it to be absent afterwards. -/
theorem updateAccountsWithChainData_claim_counterexample :
    foldEq "0xAB" "0xab" = true ∧
    ((updateAccountsWithChainData
        [⟨"0xAB", "", fun _ => none, fun _ _ => none, fun _ => none,
          fun c => if c = "Eth" then some "boom" else none, []⟩]
        ⟨"Eth", [⟨"0xab", some 1, none, fun _ => none⟩], [], none⟩).headD
      ⟨"", "", fun _ => none, fun _ _ => none, fun _ => none,
        fun _ => none, []⟩).balances "Eth" = none ∧
    ((updateAccountsWithChainData
        [⟨"0xab", "", fun _ => none, fun _ _ => none, fun _ => none,
          fun c => if c = "Eth" then some "boom" else none, []⟩]
        ⟨"Eth", [⟨"0xab", some 1, none, fun _ => none⟩], [], none⟩).headD
      ⟨"", "", fun _ => none, fun _ _ => none, fun _ => none,
        fun _ => none, []⟩).errors "Eth" = some "boom" := by
  refine ⟨by decide, ?_, ?_⟩
  · have hne : (("0xAB" : String) == "0xab") = false := by decide
    simp [updateAccountsWithChainData, mergeFold, updateFirstAccount, hne]
  · have heq : (("0xab" : String) == "0xab") = true := by decide
    simp [updateAccountsWithChainData, mergeFold, updateFirstAccount, heq,
      applyResultWatcher]

/-- C1 (amended): the TUI merge (`chainDataMsg` case of `model.Update`)
locates each result's account by case-insensitive (EqualFold) address
comparison, overwrites `balances[c]`, `balances24h[c]` and every listed
entry of `tokenBalances[c]`, and deletes the account's `errors[c]` entry;
the watcher's `updateAccountsWithChainData` performs the same overwrites
but locates by case-SENSITIVE equality and leaves every account's
`errors` map completely unchanged.  (Addresses of accounts, and of
results, are assumed pairwise distinct up to case, the configuration
invariant.) -/
theorem mergeChainData_amended
    (chainName : String) (results : List AccountChainData)
    (accounts : List Account) (frpcs : List String) (errd : Option String)
    (hA : (accounts.map (fun a => a.address)).Pairwise
      (fun x y => foldEq x y = false))
    (hR : (results.map (fun r => r.address)).Pairwise
      (fun x y => foldEq x y = false)) :
    (∀ res ∈ results, ∀ acc ∈ mergeChainDataMain accounts chainName results,
      foldEq acc.address res.address = true →
        acc.balances chainName = some res.balance ∧
        acc.balances24h chainName = some res.balance24h ∧
        (∀ s b, res.tokenBalances s = some b →
          acc.tokenBalances chainName s = some b) ∧
        acc.errors chainName = none) ∧
    (∀ res ∈ results,
      ∀ acc ∈ updateAccountsWithChainData accounts
        ⟨chainName, results, frpcs, errd⟩,
      acc.address = res.address →
        acc.balances chainName = some res.balance ∧
        acc.balances24h chainName = some res.balance24h ∧
        (∀ s b, res.tokenBalances s = some b →
          acc.tokenBalances chainName s = some b)) ∧
    (∀ acc ∈ updateAccountsWithChainData accounts
        ⟨chainName, results, frpcs, errd⟩,
      ∃ acc0, acc0 ∈ accounts ∧ acc.address = acc0.address ∧
        acc.errors = acc0.errors) := by
  have hAe : (accounts.map (fun a => a.address)).Pairwise
      (fun x y => (x == y) = false) :=
    hA.imp (fun {x y} h => eqb_false_of_foldEq_false h)
  have hRe : (results.map (fun r => r.address)).Pairwise
      (fun x y => (x == y) = false) :=
    hR.imp (fun {x y} h => eqb_false_of_foldEq_false h)
  refine ⟨?_, ?_, ?_⟩
  · intro res hres acc hacc hmatch
    rw [mergeChainDataMain_eq,
      mergeFold_eq_map foldEq (applyResultMain chainName) foldEq_symm
        foldEq_trans (applyResultMain_address chainName) results accounts hA]
      at hacc
    obtain ⟨a, ha, rfl⟩ := List.mem_map.mp hacc
    rw [chainApply_address foldEq (applyResultMain chainName)
      (applyResultMain_address chainName)] at hmatch
    rw [chainApply_match foldEq (applyResultMain chainName) foldEq_symm
      foldEq_trans (applyResultMain_address chainName) results a res hres
      hmatch hR]
    refine ⟨?_, ?_, ?_, ?_⟩
    · simp [applyResultMain, applyResultWatcher]
    · simp [applyResultMain, applyResultWatcher]
    · intro s b hsb
      simp [applyResultMain, applyResultWatcher, hsb]
    · simp [applyResultMain]
  · intro res hres acc hacc hmatch
    rw [updateAccountsWithChainData_eq,
      mergeFold_eq_map (fun x y => x == y) (applyResultWatcher chainName)
        eqbString_symm eqbString_trans (applyResultWatcher_address chainName)
        results accounts hAe] at hacc
    obtain ⟨a, ha, rfl⟩ := List.mem_map.mp hacc
    rw [chainApply_address (fun x y => x == y) (applyResultWatcher chainName)
      (applyResultWatcher_address chainName)] at hmatch
    have hmatchb : (a.address == res.address) = true := by
      simp [hmatch]
    rw [chainApply_match (fun x y => x == y) (applyResultWatcher chainName)
      eqbString_symm eqbString_trans (applyResultWatcher_address chainName)
      results a res hres hmatchb hRe]
    refine ⟨?_, ?_, ?_⟩
    · simp [applyResultWatcher]
    · simp [applyResultWatcher]
    · intro s b hsb
      simp [applyResultWatcher, hsb]
  · intro acc hacc
    rw [updateAccountsWithChainData_eq,
      mergeFold_eq_map (fun x y => x == y) (applyResultWatcher chainName)
        eqbString_symm eqbString_trans (applyResultWatcher_address chainName)
        results accounts hAe] at hacc
    obtain ⟨a, ha, rfl⟩ := List.mem_map.mp hacc
    refine ⟨a, ha, ?_, ?_⟩
    · exact chainApply_address (fun x y => x == y)
        (applyResultWatcher chainName) (applyResultWatcher_address chainName)
        results a
    · exact chainApply_errors (fun x y => x == y)
        (applyResultWatcher chainName) (applyResultWatcher_errors chainName)
        results a

/-- Witness for the amended C1 at a concrete input: merging one result at
"0xab" updates the case-variant account "0xAB" (clearing its error) via
the TUI merge, while the watcher merge updates the exactly matching
account "0xab" but leaves its recorded error in place. -/
theorem mergeChainData_amended_witness :
    ((mergeChainDataMain
        [⟨"0xAB", "", fun _ => none, fun _ _ => none, fun _ => none,
          fun c => if c = "Eth" then some "boom" else none, []⟩]
        "Eth" [⟨"0xab", some 1, none, fun _ => some (some 2)⟩]).headD
      ⟨"", "", fun _ => none, fun _ _ => none, fun _ => none,
        fun _ => none, []⟩).balances "Eth" = some (some 1) ∧
    ((mergeChainDataMain
        [⟨"0xAB", "", fun _ => none, fun _ _ => none, fun _ => none,
          fun c => if c = "Eth" then some "boom" else none, []⟩]
        "Eth" [⟨"0xab", some 1, none, fun _ => some (some 2)⟩]).headD
      ⟨"", "", fun _ => none, fun _ _ => none, fun _ => none,
        fun _ => none, []⟩).errors "Eth" = none ∧
    ((updateAccountsWithChainData
        [⟨"0xab", "", fun _ => none, fun _ _ => none, fun _ => none,
          fun c => if c = "Eth" then some "boom" else none, []⟩]
        ⟨"Eth", [⟨"0xab", some 1, none, fun _ => some (some 2)⟩], [],
          none⟩).headD
      ⟨"", "", fun _ => none, fun _ _ => none, fun _ => none,
        fun _ => none, []⟩).balances "Eth" = some (some 1) ∧
    ((updateAccountsWithChainData
        [⟨"0xab", "", fun _ => none, fun _ _ => none, fun _ => none,
          fun c => if c = "Eth" then some "boom" else none, []⟩]
        ⟨"Eth", [⟨"0xab", some 1, none, fun _ => some (some 2)⟩], [],
          none⟩).headD
      ⟨"", "", fun _ => none, fun _ _ => none, fun _ => none,
        fun _ => none, []⟩).tokenBalances "Eth" "Tok" = some (some 2) ∧
    ((updateAccountsWithChainData
        [⟨"0xab", "", fun _ => none, fun _ _ => none, fun _ => none,
          fun c => if c = "Eth" then some "boom" else none, []⟩]
        ⟨"Eth", [⟨"0xab", some 1, none, fun _ => some (some 2)⟩], [],
          none⟩).headD
      ⟨"", "", fun _ => none, fun _ _ => none, fun _ => none,
        fun _ => none, []⟩).errors "Eth" = some "boom" := by
  obtain ⟨h1, _, _⟩ := mergeChainData_amended "Eth"
    [⟨"0xab", some 1, none, fun _ => some (some 2)⟩]
    [⟨"0xAB", "", fun _ => none, fun _ _ => none, fun _ => none,
      fun c => if c = "Eth" then some "boom" else none, []⟩]
    [] none (by simp) (by simp)
  obtain ⟨_, h2, h3⟩ := mergeChainData_amended "Eth"
    [⟨"0xab", some 1, none, fun _ => some (some 2)⟩]
    [⟨"0xab", "", fun _ => none, fun _ _ => none, fun _ => none,
      fun c => if c = "Eth" then some "boom" else none, []⟩]
    [] none (by simp) (by simp)
  have hout1 : mergeChainDataMain
      [⟨"0xAB", "", fun _ => none, fun _ _ => none, fun _ => none,
        fun c => if c = "Eth" then some "boom" else none, []⟩]
      "Eth" [⟨"0xab", some 1, none, fun _ => some (some 2)⟩] =
      [applyResultMain "Eth" ⟨"0xab", some 1, none, fun _ => some (some 2)⟩
        ⟨"0xAB", "", fun _ => none, fun _ _ => none, fun _ => none,
          fun c => if c = "Eth" then some "boom" else none, []⟩] := by
    have hp : foldEq "0xAB" "0xab" = true := by decide
    simp [mergeChainDataMain, mergeFold, updateFirstAccount, hp]
  have hout2 : updateAccountsWithChainData
      [⟨"0xab", "", fun _ => none, fun _ _ => none, fun _ => none,
        fun c => if c = "Eth" then some "boom" else none, []⟩]
      ⟨"Eth", [⟨"0xab", some 1, none, fun _ => some (some 2)⟩], [], none⟩ =
      [applyResultWatcher "Eth"
        ⟨"0xab", some 1, none, fun _ => some (some 2)⟩
        ⟨"0xab", "", fun _ => none, fun _ _ => none, fun _ => none,
          fun c => if c = "Eth" then some "boom" else none, []⟩] := by
    simp [updateAccountsWithChainData, mergeFold, updateFirstAccount]
  have hmem1 : applyResultMain "Eth"
      ⟨"0xab", some 1, none, fun _ => some (some 2)⟩
      ⟨"0xAB", "", fun _ => none, fun _ _ => none, fun _ => none,
        fun c => if c = "Eth" then some "boom" else none, []⟩ ∈
      mergeChainDataMain
        [⟨"0xAB", "", fun _ => none, fun _ _ => none, fun _ => none,
          fun c => if c = "Eth" then some "boom" else none, []⟩]
        "Eth" [⟨"0xab", some 1, none, fun _ => some (some 2)⟩] := by
    rw [hout1]
    exact List.mem_singleton.mpr rfl
  have hmem2 : applyResultWatcher "Eth"
      ⟨"0xab", some 1, none, fun _ => some (some 2)⟩
      ⟨"0xab", "", fun _ => none, fun _ _ => none, fun _ => none,
        fun c => if c = "Eth" then some "boom" else none, []⟩ ∈
      updateAccountsWithChainData
        [⟨"0xab", "", fun _ => none, fun _ _ => none, fun _ => none,
          fun c => if c = "Eth" then some "boom" else none, []⟩]
        ⟨"Eth", [⟨"0xab", some 1, none, fun _ => some (some 2)⟩], [],
          none⟩ := by
    rw [hout2]
    exact List.mem_singleton.mpr rfl
  obtain ⟨b1, _, _, b4⟩ := h1 ⟨"0xab", some 1, none, fun _ => some (some 2)⟩
    (List.mem_singleton.mpr rfl) _ hmem1 (by decide)
  obtain ⟨w1, _, w3⟩ := h2 ⟨"0xab", some 1, none, fun _ => some (some 2)⟩
    (List.mem_singleton.mpr rfl) _ hmem2 rfl
  obtain ⟨acc0, hacc0, _, herr⟩ := h3 _ hmem2
  have hacc0e := List.mem_singleton.mp hacc0
  refine ⟨?_, ?_, ?_, ?_, ?_⟩
  · rw [hout1]
    exact b1
  · rw [hout1]
    exact b4
  · rw [hout2]
    exact w1
  · rw [hout2]
    exact w3 "Tok" (some 2) rfl
  · rw [hout2]
    show (applyResultWatcher "Eth"
        ⟨"0xab", some 1, none, fun _ => some (some 2)⟩
        ⟨"0xab", "", fun _ => none, fun _ _ => none, fun _ => none,
          fun c => if c = "Eth" then some "boom" else none, []⟩).errors
        "Eth" = some "boom"
    rw [herr, hacc0e]
    simp

/-! ### C2 : RPC prioritization -/

theorem rpcLess_iff (lat : String → Option Int) (i j : String) :
    rpcLess lat i j = true ↔
      ((0 < (lat i).getD 0 ∧ ¬ 0 < (lat j).getD 0) ∨
       (0 < (lat i).getD 0 ∧ 0 < (lat j).getD 0 ∧
         (lat i).getD 0 < (lat j).getD 0) ∨
       (¬ 0 < (lat i).getD 0 ∧ ¬ 0 < (lat j).getD 0 ∧
         ¬ (lat i).getD 0 < 0 ∧ (lat j).getD 0 < 0)) := by
  simp only [rpcLess]
  split_ifs with h1 h2 h3 h4 <;>
    simp_all <;> omega

theorem rpcLe_trans (lat : String → Option Int) (a b c : String)
    (h1 : (!rpcLess lat b a) = true) (h2 : (!rpcLess lat c b) = true) :
    (!rpcLess lat c a) = true := by
  have h1p : rpcLess lat b a = false := by simpa using h1
  have h2p : rpcLess lat c b = false := by simpa using h2
  have h1q := (rpcLess_iff lat b a).not.mp (by simp [h1p])
  have h2q := (rpcLess_iff lat c b).not.mp (by simp [h2p])
  rcases Bool.eq_false_or_eq_true (rpcLess lat c a) with hc | hc
  · exfalso
    have h3q := (rpcLess_iff lat c a).mp hc
    push_neg at h1q h2q
    omega
  · simp [hc]

theorem rpcLe_total (lat : String → Option Int) (a b : String) :
    ((!rpcLess lat b a) || (!rpcLess lat a b)) = true := by
  rcases Bool.eq_false_or_eq_true (rpcLess lat b a) with hba | hba
  · rcases Bool.eq_false_or_eq_true (rpcLess lat a b) with hab | hab
    · exfalso
      have q1 := (rpcLess_iff lat b a).mp hba
      have q2 := (rpcLess_iff lat a b).mp hab
      omega
    · simp [hab]
  · simp [hba]

theorem rpcLe_implies (lat : String → Option Int) (u v : String)
    (h : (!rpcLess lat v u) = true) :
    (0 < (lat u).getD 0 → 0 < (lat v).getD 0 →
      (lat u).getD 0 ≤ (lat v).getD 0) ∧
    (lat u = none → ¬ 0 < (lat v).getD 0) ∧
    ((lat u).getD 0 < 0 → (lat v).getD 0 < 0) := by
  have hp : rpcLess lat v u = false := by simpa using h
  have hq := (rpcLess_iff lat v u).not.mp (by simp [hp])
  push_neg at hq
  have hnone : lat u = none → (lat u).getD 0 = 0 := by
    intro h0
    rw [h0]
    rfl
  refine ⟨?_, ?_, ?_⟩
  · intro h1 h2
    omega
  · intro h0
    have := hnone h0
    omega
  · intro h1
    omega

/-- C2: `getPrioritizedRPCs` returns a permutation of the input URL list;
every URL not in active cooldown precedes every URL in active cooldown;
within the non-cooldown bucket, URLs with a valid positive latency appear
in non-decreasing latency order and precede URLs with no measurement,
which precede URLs whose last measurement is the error sentinel; and an
empty input yields an empty output (the function is total).  The two
`rand.Shuffle` calls are quantified as arbitrary permutations. -/
theorem getPrioritizedRPCs_spec (cooldowns lat : String → Option Int)
    (now : Int) (shuffleH shuffleC : List String → List String)
    (urls : List String)
    (hH : ∀ l, (shuffleH l).Perm l) (hC : ∀ l, (shuffleC l).Perm l) :
    (getPrioritizedRPCs cooldowns lat now shuffleH shuffleC urls).Perm urls ∧
    (getPrioritizedRPCs cooldowns lat now shuffleH shuffleC urls).Pairwise
      (fun u v =>
        (inCooldown cooldowns now u = true → inCooldown cooldowns now v = true) ∧
        (inCooldown cooldowns now u = false →
          inCooldown cooldowns now v = false →
          (0 < (lat u).getD 0 → 0 < (lat v).getD 0 →
            (lat u).getD 0 ≤ (lat v).getD 0) ∧
          (lat u = none → ¬ 0 < (lat v).getD 0) ∧
          ((lat u).getD 0 < 0 → (lat v).getD 0 < 0))) ∧
    (urls = [] → getPrioritizedRPCs cooldowns lat now shuffleH shuffleC urls = []) := by
  set healthy := urls.filter (fun u => !(inCooldown cooldowns now u)) with hhealthy
  set cooldown := urls.filter (fun u => inCooldown cooldowns now u) with hcooldown
  set A := (shuffleH healthy).mergeSort (fun a b => !(rpcLess lat b a)) with hA
  set B := shuffleC cooldown with hB
  have hout : getPrioritizedRPCs cooldowns lat now shuffleH shuffleC urls =
      A ++ B := rfl
  have hApermH : A.Perm healthy :=
    (List.mergeSort_perm (shuffleH healthy) _).trans (hH healthy)
  have hBpermC : B.Perm cooldown := hC cooldown
  have hperm : (A ++ B).Perm urls := by
    refine ((hApermH.append hBpermC).trans ?_)
    refine (List.perm_append_comm).trans ?_
    exact List.filter_append_perm (fun u => inCooldown cooldowns now u) urls
  have hmemA : ∀ u ∈ A, inCooldown cooldowns now u = false := by
    intro u hu
    have := hApermH.mem_iff.mp hu
    have := List.of_mem_filter this
    simpa using this
  have hmemB : ∀ u ∈ B, inCooldown cooldowns now u = true := by
    intro u hu
    have := hBpermC.mem_iff.mp hu
    exact List.of_mem_filter this
  refine ⟨hout ▸ hperm, ?_, ?_⟩
  · rw [hout, List.pairwise_append]
    refine ⟨?_, ?_, ?_⟩
    · have hsorted : A.Pairwise (fun a b => (!rpcLess lat b a) = true) :=
        List.sorted_mergeSort (rpcLe_trans lat) (rpcLe_total lat)
          (shuffleH healthy)
      refine hsorted.imp_of_mem ?_
      intro a b ha hb hle
      refine ⟨?_, ?_⟩
      · intro hca
        rw [hmemA a ha] at hca
        cases hca
      · intro _ _
        exact rpcLe_implies lat a b hle
    · refine List.pairwise_of_forall_mem_list ?_
      intro a ha b hb
      refine ⟨fun _ => hmemB b hb, ?_⟩
      intro hca
      rw [hmemB a ha] at hca
      cases hca
    · intro a ha b hb
      refine ⟨fun _ => hmemB b hb, ?_⟩
      intro _ hcb
      rw [hmemB b hb] at hcb
      cases hcb
  · intro hnil
    rw [hout]
    have h1 : healthy = [] := by
      rw [hhealthy, hnil]
      rfl
    have h2 : cooldown = [] := by
      rw [hcooldown, hnil]
      rfl
    have h3 : shuffleH healthy = [] := by
      rw [h1]
      exact (hH []).eq_nil
    have h4 : B = [] := by
      rw [hB, h2]
      exact (hC []).eq_nil
    rw [hA, h3, h4]
    simp

/-- Witness for C2 at the spec's prioritization scenario: with
`rpc_fast` (10), `rpc_slow` (100), `rpc_error` (sentinel), `rpc_unknown`
(no entry) and `rpc_cooldown` (active cooldown), identity shuffles yield
the claimed permutation and the order fast, slow, unknown, error,
cooldown. -/
theorem getPrioritizedRPCs_spec_witness :
    (getPrioritizedRPCs
        (fun u => if u = "rpc_cooldown" then some 100 else none)
        (fun u => if u = "rpc_fast" then some 10
          else if u = "rpc_slow" then some 100
          else if u = "rpc_error" then some (-1) else none)
        0 (fun l => l) (fun l => l)
        ["rpc_slow", "rpc_cooldown", "rpc_error", "rpc_fast", "rpc_unknown"]).Perm
      ["rpc_slow", "rpc_cooldown", "rpc_error", "rpc_fast", "rpc_unknown"] ∧
    getPrioritizedRPCs
        (fun u => if u = "rpc_cooldown" then some 100 else none)
        (fun u => if u = "rpc_fast" then some 10
          else if u = "rpc_slow" then some 100
          else if u = "rpc_error" then some (-1) else none)
        0 (fun l => l) (fun l => l)
        ["rpc_slow", "rpc_cooldown", "rpc_error", "rpc_fast", "rpc_unknown"] =
      ["rpc_fast", "rpc_slow", "rpc_unknown", "rpc_error", "rpc_cooldown"] := by
  refine ⟨(getPrioritizedRPCs_spec _ _ 0 _ _ _ (fun l => List.Perm.refl l)
    (fun l => List.Perm.refl l)).1, ?_⟩
  simp [getPrioritizedRPCs, inCooldown, rpcLess, List.mergeSort, List.merge]

/-! ### C3 / C4 : per-chain bulk fetch -/

theorem processPending_nextPending
    (f : String → Except String AccountChainData) (p : List String)
    (st : InnerSt) :
    (processPending f p st).nextPending =
      st.nextPending ++ p.filter (fun a => isErrExc (f a)) := by
  induction p generalizing st with
  | nil => simp [processPending]
  | cons a rest ih =>
    rcases hfa : f a with e | r <;>
      simp [processPending, hfa, ih, isErrExc, List.filter_cons]

theorem processPending_hasFailure
    (f : String → Except String AccountChainData) (p : List String)
    (st : InnerSt) :
    (processPending f p st).rpcHasFailure =
      (st.rpcHasFailure || p.any (fun a => isErrExc (f a))) := by
  induction p generalizing st with
  | nil => simp [processPending]
  | cons a rest ih =>
    rcases hfa : f a with e | r <;>
      simp [processPending, hfa, ih, isErrExc]

theorem processPending_lastErr_isSome
    (f : String → Except String AccountChainData) (p : List String)
    (st : InnerSt) :
    (processPending f p st).lastErr.isSome =
      (st.lastErr.isSome || p.any (fun a => isErrExc (f a))) := by
  induction p generalizing st with
  | nil => simp [processPending]
  | cons a rest ih =>
    rcases hfa : f a with e | r <;>
      simp [processPending, hfa, ih, isErrExc]

theorem processPending_results_addresses
    (f : String → Except String AccountChainData) (p : List String)
    (st : InnerSt) (haddr : ∀ x r, f x = .ok r → r.address = x) :
    (processPending f p st).results.map (fun r => r.address) =
      st.results.map (fun r => r.address) ++
        p.filter (fun a => !isErrExc (f a)) := by
  induction p generalizing st with
  | nil => simp [processPending]
  | cons a rest ih =>
    rcases hfa : f a with e | r
    · simp [processPending, hfa, ih, isErrExc, List.filter_cons]
    · have hra := haddr a r hfa
      simp [processPending, hfa, ih, isErrExc, List.filter_cons, hra]

theorem fetchChainLoop_pending_empty
    (fetch : String → String → Except String AccountChainData)
    (dialErr : String → Option String) (urls : List String) (st : FetchSt)
    (h : st.pending = []) :
    fetchChainLoop fetch dialErr urls st = st := by
  cases urls with
  | nil => rfl
  | cons url rest =>
    simp [fetchChainLoop, h]

theorem fetchChainLoop_lastErr_mono
    (fetch : String → String → Except String AccountChainData)
    (dialErr : String → Option String) (urls : List String) (st : FetchSt)
    (h : st.lastErr.isSome = true) :
    (fetchChainLoop fetch dialErr urls st).lastErr.isSome = true := by
  induction urls generalizing st with
  | nil => exact h
  | cons url rest ih =>
    by_cases hp : st.pending.isEmpty
    · simpa [fetchChainLoop, hp] using h
    · rcases hd : dialErr url with _ | e
      · simp only [fetchChainLoop, hp, if_false, hd]
        apply ih
        simp [processPending_lastErr_isSome, h]
      · simp only [fetchChainLoop, hp, if_false, hd]
        apply ih
        simp

theorem fetchChainLoop_perm
    (fetch : String → String → Except String AccountChainData)
    (dialErr : String → Option String) (urls : List String) (st : FetchSt)
    (haddr : ∀ u a r, fetch u a = .ok r → r.address = a) :
    ((fetchChainLoop fetch dialErr urls st).results.map (fun r => r.address) ++
      (fetchChainLoop fetch dialErr urls st).pending).Perm
      (st.results.map (fun r => r.address) ++ st.pending) := by
  induction urls generalizing st with
  | nil => simp [fetchChainLoop]
  | cons url rest ih =>
    by_cases hp : st.pending.isEmpty
    · simp [fetchChainLoop, hp]
    · have hp' : st.pending.isEmpty = false := by
        rcases Bool.eq_false_or_eq_true st.pending.isEmpty with h0 | h0
        · exact absurd h0 hp
        · exact h0
      rcases hd : dialErr url with _ | e
      · simp only [fetchChainLoop, hp', Bool.false_eq_true, if_false, hd]
        refine (ih _).trans ?_
        rw [processPending_results_addresses _ _ _ (haddr url),
          processPending_nextPending]
        simp only [List.nil_append]
        rw [List.append_assoc]
        refine List.Perm.append_left _ ?_
        exact (List.perm_append_comm).trans
          (List.filter_append_perm (fun a => isErrExc (fetch url a)) st.pending)
      · simp only [fetchChainLoop, hp', Bool.false_eq_true, if_false, hd]
        exact ih _

theorem fetchChainLoop_failed_iff
    (fetch : String → String → Except String AccountChainData)
    (dialErr : String → Option String) (urls : List String) (st : FetchSt)
    (u : String) :
    (u ∈ (fetchChainLoop fetch dialErr urls st).failed ↔
      u ∈ st.failed ∨ anyFailureOn fetch dialErr urls st.pending u = true) := by
  induction urls generalizing st with
  | nil => simp [fetchChainLoop, anyFailureOn]
  | cons url rest ih =>
    by_cases hp : st.pending.isEmpty
    · simp [fetchChainLoop, anyFailureOn, hp]
    · have hp' : st.pending.isEmpty = false := by
        rcases Bool.eq_false_or_eq_true st.pending.isEmpty with h0 | h0
        · exact absurd h0 hp
        · exact h0
      rcases hd : dialErr url with _ | e
      · simp only [fetchChainLoop, anyFailureOn, hp', Bool.false_eq_true,
          if_false, hd]
        rw [ih]
        have hHF : (processPending (fetch url) st.pending
            ⟨st.results, [], st.lastErr, false⟩).rpcHasFailure =
            (processPending (fetch url) st.pending
              ⟨[], [], none, false⟩).rpcHasFailure := by
          rw [processPending_hasFailure, processPending_hasFailure]
        have hNP : (processPending (fetch url) st.pending
            ⟨st.results, [], st.lastErr, false⟩).nextPending =
            (processPending (fetch url) st.pending
              ⟨[], [], none, false⟩).nextPending := by
          rw [processPending_nextPending, processPending_nextPending]
        rw [hHF, hNP]
        by_cases hf : (processPending (fetch url) st.pending
            ⟨[], [], none, false⟩).rpcHasFailure = true
        · by_cases hu : url = u
          · subst hu
            simp [hf, List.mem_append]
          · have hub : (url == u) = false := by
              simp [hu]
            simp [hf, hub, List.mem_append, hu]
            tauto
        · have hf' : (processPending (fetch url) st.pending
              ⟨[], [], none, false⟩).rpcHasFailure = false := by
            rcases Bool.eq_false_or_eq_true ((processPending (fetch url)
              st.pending ⟨[], [], none, false⟩).rpcHasFailure) with h0 | h0
            · exact absurd h0 hf
            · exact h0
          simp [hf', List.mem_append]
      · simp only [fetchChainLoop, anyFailureOn, hp', Bool.false_eq_true,
          if_false, hd]
        rw [ih]
        by_cases hu : url = u
        · subst hu
          simp [List.mem_append]
        · have hub : (url == u) = false := by
            simp [hu]
          simp [hub, List.mem_append, hu]
          tauto

theorem isErrExc_eq_true_iff {α : Type} (x : Except String α) :
    isErrExc x = true ↔ ∃ e, x = .error e := by
  cases x <;> simp [isErrExc]

theorem fetchChainLoop_err_of_pending
    (fetch : String → String → Except String AccountChainData)
    (dialErr : String → Option String) (url : String) (rest : List String)
    (st : FetchSt) (hpend : st.pending ≠ [])
    (hfinal : (fetchChainLoop fetch dialErr (url :: rest) st).pending ≠ []) :
    (fetchChainLoop fetch dialErr (url :: rest) st).lastErr.isSome = true := by
  have hp : st.pending.isEmpty = false := by
    simpa [List.isEmpty_iff] using hpend
  rcases hd : dialErr url with _ | e
  · simp only [fetchChainLoop, hp, Bool.false_eq_true, if_false, hd] at hfinal ⊢
    by_cases hnp : (processPending (fetch url) st.pending
        ⟨st.results, [], st.lastErr, false⟩).nextPending = []
    · rw [fetchChainLoop_pending_empty _ _ _ _ hnp] at hfinal
      exact absurd hnp hfinal
    · have hsome : (processPending (fetch url) st.pending
          ⟨st.results, [], st.lastErr, false⟩).lastErr.isSome = true := by
        rw [processPending_lastErr_isSome]
        rw [processPending_nextPending] at hnp
        simp only [List.nil_append] at hnp
        have hex : ∃ a ∈ st.pending, isErrExc (fetch url a) = true := by
          by_contra hno
          push_neg at hno
          apply hnp
          rw [List.filter_eq_nil_iff]
          intro a ha
          simp [hno a ha]
        obtain ⟨a, ha, hae⟩ := hex
        have : st.pending.any (fun a => isErrExc (fetch url a)) = true := by
          rw [List.any_eq_true]
          exact ⟨a, ha, hae⟩
        simp [this]
      exact fetchChainLoop_lastErr_mono _ _ _ _ hsome
  · simp only [fetchChainLoop, hp, Bool.false_eq_true, if_false, hd]
    exact fetchChainLoop_lastErr_mono _ _ _ _ (by simp)

theorem fetchAccountData_address (client : EthClient)
    (addrBytes : String → List Nat) (chain : ChainConfig) (a : String)
    (r : AccountChainData)
    (h : fetchAccountData client addrBytes chain a = .ok r) :
    r.address = a := by
  unfold fetchAccountData at h
  rcases hb : client.balanceAt a with e | b <;> rw [hb] at h
  · cases h
  · rcases ht : fetchTokensLoop client (addrBytes a) chain.tokens
        (fun _ => none) with e | tb <;> rw [ht] at h
    · cases h
    · cases h
      rfl

/-- C3: the bulk fetch returns each successfully fetched address as
exactly one result record (the result addresses are duplicate-free and,
together with the still-pending addresses, form a permutation of the
input); a URL is in the failure set iff during the run it was attempted
with a non-empty pending set and either failed to dial or had at least
one pending address fail on it (`anyFailureOn`, whose per-URL failure
flag is spelled out by the last conjunct); and a terminal error is
reported iff some address is still pending after exhausting the
(non-empty) URL list. -/
theorem FetchChainData_spec (env : RpcEnv) (addrBytes : String → List Nat)
    (chain : ChainConfig) (addresses : List String)
    (hnodup : addresses.Nodup) (hurls : chain.rpcURLs ≠ []) :
    ((FetchChainData env addrBytes chain addresses).results.map
        (fun r => r.address) ++
      (fetchChainLoop
        (fun url addr => fetchAccountData (env.client url) addrBytes chain addr)
        env.dialErr chain.rpcURLs ⟨[], [], none, addresses⟩).pending).Perm
      addresses ∧
    ((FetchChainData env addrBytes chain addresses).results.map
      (fun r => r.address)).Nodup ∧
    (∀ u, u ∈ (FetchChainData env addrBytes chain addresses).failedRPCs ↔
      anyFailureOn
        (fun url addr => fetchAccountData (env.client url) addrBytes chain addr)
        env.dialErr chain.rpcURLs addresses u = true) ∧
    ((FetchChainData env addrBytes chain addresses).errData.isSome ↔
      (fetchChainLoop
        (fun url addr => fetchAccountData (env.client url) addrBytes chain addr)
        env.dialErr chain.rpcURLs ⟨[], [], none, addresses⟩).pending ≠ []) ∧
    (∀ url pending2,
      (processPending
        (fun addr => fetchAccountData (env.client url) addrBytes chain addr)
        pending2 ⟨[], [], none, false⟩).rpcHasFailure = true ↔
      ∃ a ∈ pending2, ∃ e,
        fetchAccountData (env.client url) addrBytes chain a = .error e) := by
  have haddr : ∀ u a r,
      (fun url addr => fetchAccountData (env.client url) addrBytes chain addr)
        u a = .ok r → r.address = a :=
    fun u a r h => fetchAccountData_address (env.client u) addrBytes chain a r h
  have hperm := fetchChainLoop_perm
    (fun url addr => fetchAccountData (env.client url) addrBytes chain addr)
    env.dialErr chain.rpcURLs ⟨[], [], none, addresses⟩ haddr
  simp only [List.map_nil, List.nil_append] at hperm
  refine ⟨hperm, ?_, ?_, ?_, ?_⟩
  · have hx := (hperm.nodup_iff).mpr hnodup
    exact hx.of_append_left
  · intro u
    have := fetchChainLoop_failed_iff
      (fun url addr => fetchAccountData (env.client url) addrBytes chain addr)
      env.dialErr chain.rpcURLs ⟨[], [], none, addresses⟩ u
    simpa using this
  · constructor
    · intro hsome hnil
      simp [FetchChainData, FetchChainDataWith, hnil] at hsome
    · intro hne
      have hEmpF : (fetchChainLoop
          (fun url addr => fetchAccountData (env.client url) addrBytes chain addr)
          env.dialErr chain.rpcURLs ⟨[], [], none, addresses⟩).pending.isEmpty
          = false := by
        simpa [List.isEmpty_iff] using hne
      have hinit : addresses ≠ [] := by
        intro h0
        apply hne
        rw [fetchChainLoop_pending_empty _ _ _ _ h0]
        exact h0
      rcases hu : chain.rpcURLs with _ | ⟨url, rest⟩
      · exact absurd hu hurls
      · have hsome := fetchChainLoop_err_of_pending
          (fun url addr => fetchAccountData (env.client url) addrBytes chain addr)
          env.dialErr url rest ⟨[], [], none, addresses⟩ (by simpa using hinit)
          (by rw [← hu]; exact hne)
        rw [← hu] at hsome
        simp [FetchChainData, FetchChainDataWith, hEmpF, hsome]
  · intro url pending2
    rw [processPending_hasFailure]
    simp only [Bool.false_or, List.any_eq_true]
    constructor
    · rintro ⟨a, ha, hae⟩
      rw [isErrExc_eq_true_iff] at hae
      exact ⟨a, ha, hae⟩
    · rintro ⟨a, ha, e, hae⟩
      exact ⟨a, ha, (isErrExc_eq_true_iff _).mpr ⟨e, hae⟩⟩

/-- Witness for C3 at the spec's failover scenario: URLs [bad, good]
where bad fails to dial and good serves the one address.  The result
set lists the address once, bad is the only failed URL, and no terminal
error is reported. -/
theorem FetchChainData_spec_witness :
    ((FetchChainData
        ⟨fun u => if u = "bad" then some "dial refused" else none,
          fun _ => ⟨fun _ => .ok 2500000000000000000, fun _ => .error "old",
            fun _ _ => .error "no contract"⟩⟩
        (fun _ => List.replicate 20 0) ⟨"MockChain", ["bad", "good"], []⟩
        ["0xa"]).results.map (fun r => r.address) ++
      (fetchChainLoop
        (fun url addr => fetchAccountData
          ((⟨fun u => if u = "bad" then some "dial refused" else none,
            fun _ => ⟨fun _ => .ok 2500000000000000000, fun _ => .error "old",
              fun _ _ => .error "no contract"⟩⟩ : RpcEnv).client url)
          (fun _ => List.replicate 20 0) ⟨"MockChain", ["bad", "good"], []⟩ addr)
        (⟨fun u => if u = "bad" then some "dial refused" else none,
          fun _ => ⟨fun _ => .ok 2500000000000000000, fun _ => .error "old",
            fun _ _ => .error "no contract"⟩⟩ : RpcEnv).dialErr
        ["bad", "good"] ⟨[], [], none, ["0xa"]⟩).pending).Perm ["0xa"] ∧
    ("bad" ∈ (FetchChainData
        ⟨fun u => if u = "bad" then some "dial refused" else none,
          fun _ => ⟨fun _ => .ok 2500000000000000000, fun _ => .error "old",
            fun _ _ => .error "no contract"⟩⟩
        (fun _ => List.replicate 20 0) ⟨"MockChain", ["bad", "good"], []⟩
        ["0xa"]).failedRPCs ↔
      anyFailureOn
        (fun url addr => fetchAccountData
          ((⟨fun u => if u = "bad" then some "dial refused" else none,
            fun _ => ⟨fun _ => .ok 2500000000000000000, fun _ => .error "old",
              fun _ _ => .error "no contract"⟩⟩ : RpcEnv).client url)
          (fun _ => List.replicate 20 0) ⟨"MockChain", ["bad", "good"], []⟩ addr)
        (⟨fun u => if u = "bad" then some "dial refused" else none,
          fun _ => ⟨fun _ => .ok 2500000000000000000, fun _ => .error "old",
            fun _ _ => .error "no contract"⟩⟩ : RpcEnv).dialErr
        ["bad", "good"] ["0xa"] "bad" = true) ∧
    (FetchChainData
        ⟨fun u => if u = "bad" then some "dial refused" else none,
          fun _ => ⟨fun _ => .ok 2500000000000000000, fun _ => .error "old",
            fun _ _ => .error "no contract"⟩⟩
        (fun _ => List.replicate 20 0) ⟨"MockChain", ["bad", "good"], []⟩
        ["0xa"]).failedRPCs = ["bad"] ∧
    (FetchChainData
        ⟨fun u => if u = "bad" then some "dial refused" else none,
          fun _ => ⟨fun _ => .ok 2500000000000000000, fun _ => .error "old",
            fun _ _ => .error "no contract"⟩⟩
        (fun _ => List.replicate 20 0) ⟨"MockChain", ["bad", "good"], []⟩
        ["0xa"]).errData = none := by
  obtain ⟨h1, _, h3, _, _⟩ := FetchChainData_spec
    ⟨fun u => if u = "bad" then some "dial refused" else none,
      fun _ => ⟨fun _ => .ok 2500000000000000000, fun _ => .error "old",
        fun _ _ => .error "no contract"⟩⟩
    (fun _ => List.replicate 20 0) ⟨"MockChain", ["bad", "good"], []⟩
    ["0xa"] (by decide) (by decide)
  refine ⟨h1, h3 "bad", ?_, ?_⟩
  · rfl
  · rfl

theorem retryBalanceAt_ok (client : EthClient) (addr : String) (b : Int)
    (h : client.balanceAt addr = .ok b) (n : Nat) :
    retryBalanceAt client addr n = .ok b := by
  cases n with
  | zero => simpa [retryBalanceAt] using h
  | succ m => simp [retryBalanceAt, h]

theorem fetchTokensLoop_err_iff (client : EthClient) (bytes : List Nat)
    (tokens : List TokenConfig) (m : String → Option (Option Rat)) :
    isErrExc (fetchTokensLoop client bytes tokens m) =
      tokens.any (fun t => isErrExc (fetchTokenBalanceInternal client t bytes)) := by
  induction tokens generalizing m with
  | nil => simp [fetchTokensLoop, isErrExc]
  | cons t rest ih =>
    rcases ht : fetchTokenBalanceInternal client t bytes with e | b
    · simp [fetchTokensLoop, ht, isErrExc]
    · have hstep : fetchTokensLoop client bytes (t :: rest) m =
          fetchTokensLoop client bytes rest
            (fun s => if s = t.symbol then some (some b) else m s) := by
        simp [fetchTokensLoop, ht]
      rw [hstep, ih]
      simp [isErrExc, ht]

theorem mainTokensFold_all_fail (client : EthClient) (bytes : List Nat)
    (tokens : List TokenConfig) (m : String → Option (Option Rat))
    (h : ∀ t ∈ tokens, isErrExc (fetchTokenBalanceInternal client t bytes) = true) :
    tokens.foldl
      (fun m t =>
        match fetchTokenBalanceInternal client t bytes with
        | .ok b => fun s => if s = t.symbol then some (some b) else m s
        | .error _ => m) m = m := by
  induction tokens generalizing m with
  | nil => rfl
  | cons t rest ih =>
    have ht := h t (List.mem_cons_self t rest)
    rcases hft : fetchTokenBalanceInternal client t bytes with e | b
    · simp only [List.foldl_cons, hft]
      exact ih m (fun t2 h2 => h t2 (List.mem_cons_of_mem _ h2))
    · rw [hft] at ht
      simp [isErrExc] at ht

/-- C4 counterexample: the claim is false of the TUI bulk fetch
(main.go `fetchChainData`, token loop at 2756-2761).  With one URL, one
address and one token whose balanceOf call fails while the native
balance succeeds, the address still yields a result record (with the
token entry simply absent), the URL is not marked failed, nothing stays
pending and no error is reported — the claim requires the whole address
to fail.  Moreover the calldata built by the code differs from the
claim's "address right-padded to 32 bytes" layout. -/
theorem tokenFailure_claim_counterexample :
    isErrExc (fetchTokenBalanceInternal
      ⟨fun _ => .ok 1000000000000000000, fun _ => .error "old",
        fun _ _ => .error "tokfail"⟩
      ⟨"TOK", "0xt", 6⟩ (List.replicate 20 0)) = true ∧
    (mainFetchChainData
      ⟨fun _ => none,
        fun _ => ⟨fun _ => .ok 1000000000000000000, fun _ => .error "old",
          fun _ _ => .error "tokfail"⟩⟩
      (fun _ => List.replicate 20 0)
      ⟨"C", ["u1"], [⟨"TOK", "0xt", 6⟩]⟩ ["0xa"]).results.map
        (fun r => r.address) = ["0xa"] ∧
    (mainFetchChainData
      ⟨fun _ => none,
        fun _ => ⟨fun _ => .ok 1000000000000000000, fun _ => .error "old",
          fun _ _ => .error "tokfail"⟩⟩
      (fun _ => List.replicate 20 0)
      ⟨"C", ["u1"], [⟨"TOK", "0xt", 6⟩]⟩ ["0xa"]).failedRPCs = [] ∧
    (mainFetchChainData
      ⟨fun _ => none,
        fun _ => ⟨fun _ => .ok 1000000000000000000, fun _ => .error "old",
          fun _ _ => .error "tokfail"⟩⟩
      (fun _ => List.replicate 20 0)
      ⟨"C", ["u1"], [⟨"TOK", "0xt", 6⟩]⟩ ["0xa"]).errData = none ∧
    ((mainFetchChainData
      ⟨fun _ => none,
        fun _ => ⟨fun _ => .ok 1000000000000000000, fun _ => .error "old",
          fun _ _ => .error "tokfail"⟩⟩
      (fun _ => List.replicate 20 0)
      ⟨"C", ["u1"], [⟨"TOK", "0xt", 6⟩]⟩ ["0xa"]).results.headD
        ⟨"", none, none, fun _ => none⟩).tokenBalances "TOK" = none ∧
    erc20BalanceOfCalldata (1 :: List.replicate 19 0) ≠
      erc20BalanceOfCalldataClaim (1 :: List.replicate 19 0) := by
  refine ⟨rfl, rfl, rfl, rfl, rfl, by decide⟩

theorem processPending_failed_addr
    (f : String → Except String AccountChainData) (pending : List String)
    (a : String) (e : String)
    (haddr : ∀ x r, f x = .ok r → r.address = x)
    (ha : a ∈ pending) (hfa : f a = .error e) :
    a ∈ (processPending f pending ⟨[], [], none, false⟩).nextPending ∧
    a ∉ (processPending f pending ⟨[], [], none, false⟩).results.map
      (fun r => r.address) ∧
    (processPending f pending ⟨[], [], none, false⟩).rpcHasFailure = true := by
  refine ⟨?_, ?_, ?_⟩
  · rw [processPending_nextPending]
    simp only [List.nil_append]
    rw [List.mem_filter]
    exact ⟨ha, by simp [isErrExc, hfa]⟩
  · rw [processPending_results_addresses _ _ _ haddr]
    simp only [List.map_nil, List.nil_append]
    intro hmem
    have := (List.mem_filter.mp hmem).2
    simp [isErrExc, hfa] at this
  · rw [processPending_hasFailure]
    simp only [Bool.false_or, List.any_eq_true]
    exact ⟨a, ha, by simp [isErrExc, hfa]⟩

/-- C4 (amended): the balanceOf calldata is the 4 selector bytes
0x70a08231 followed by the 20-byte address LEFT-padded with 12 zero
bytes (right-aligned in the 32-byte word), not right-padded as the claim
words it.  In the rpc package bulk fetch, a failing token call fails the
whole address: `fetchAccountData` succeeds iff the native balance call
and every configured token call succeed, and an address whose per-URL
fetch fails yields no result record on that URL, goes back into the
pending set and marks the URL failed.  In the TUI bulk fetch (main.go),
by contrast, a failing token call is silently skipped: the address still
succeeds whenever the native balance call succeeds, with the failing
tokens' entries absent. -/
theorem tokenFailure_amended :
    (∀ bytes : List Nat,
      erc20BalanceOfCalldata bytes =
        [0x70, 0xa0, 0x82, 0x31] ++ List.replicate 12 0 ++ bytes ∧
      (bytes.length = 20 → (erc20BalanceOfCalldata bytes).length = 36)) ∧
    (∀ (client : EthClient) (ab : String → List Nat) (chain : ChainConfig)
        (addr : String),
      isErrExc (fetchAccountData client ab chain addr) = false ↔
        (isErrExc (client.balanceAt addr) = false ∧
          ∀ t ∈ chain.tokens,
            isErrExc (fetchTokenBalanceInternal client t (ab addr)) = false)) ∧
    (∀ (f : String → Except String AccountChainData) (pending : List String)
        (a e : String),
      (∀ x r, f x = .ok r → r.address = x) → a ∈ pending → f a = .error e →
        a ∈ (processPending f pending ⟨[], [], none, false⟩).nextPending ∧
        a ∉ (processPending f pending ⟨[], [], none, false⟩).results.map
          (fun r => r.address) ∧
        (processPending f pending ⟨[], [], none, false⟩).rpcHasFailure = true) ∧
    (∀ (client : EthClient) (ab : String → List Nat)
        (tokens : List TokenConfig) (addr : String) (b : Int),
      client.balanceAt addr = .ok b →
        ∃ r, mainFetchAccount client ab tokens addr = .ok r ∧
          r.address = addr ∧
          ((∀ t ∈ tokens,
              isErrExc (fetchTokenBalanceInternal client t (ab addr)) = true) →
            ∀ s, r.tokenBalances s = none)) := by
  refine ⟨?_, ?_, ?_, ?_⟩
  · intro bytes
    refine ⟨rfl, ?_⟩
    intro h20
    simp [erc20BalanceOfCalldata, h20]
  · intro client ab chain addr
    rcases hb : client.balanceAt addr with e | b
    · simp only [fetchAccountData, hb]
      constructor
      · intro h
        simp [isErrExc] at h
      · rintro ⟨h1, _⟩
        simp [isErrExc] at h1
    · simp only [fetchAccountData, hb]
      rcases ht : fetchTokensLoop client (ab addr) chain.tokens
          (fun _ => none) with e2 | tb
      · have hiff := fetchTokensLoop_err_iff client (ab addr) chain.tokens
          (fun _ => none)
        rw [ht] at hiff
        have hany : chain.tokens.any
            (fun t => isErrExc (fetchTokenBalanceInternal client t (ab addr)))
            = true := by
          rw [← hiff]
          rfl
        constructor
        · intro h
          simp [isErrExc] at h
        · rintro ⟨_, h2⟩
          rw [List.any_eq_true] at hany
          obtain ⟨t, htm, hterr⟩ := hany
          rw [h2 t htm] at hterr
          cases hterr
      · have hiff := fetchTokensLoop_err_iff client (ab addr) chain.tokens
          (fun _ => none)
        rw [ht] at hiff
        have hany : chain.tokens.any
            (fun t => isErrExc (fetchTokenBalanceInternal client t (ab addr)))
            = false := by
          rw [← hiff]
          rfl
        constructor
        · intro _
          refine ⟨by simp [hb, isErrExc], ?_⟩
          intro t htm
          rcases Bool.eq_false_or_eq_true
              (isErrExc (fetchTokenBalanceInternal client t (ab addr))) with
            hc | hc
          · exfalso
            have hx : chain.tokens.any
                (fun t => isErrExc (fetchTokenBalanceInternal client t (ab addr)))
                = true := by
              rw [List.any_eq_true]
              exact ⟨t, htm, hc⟩
            rw [hany] at hx
            cases hx
          · exact hc
        · intro _
          simp [isErrExc]
  · intro f pending a e haddr ha hfa
    exact processPending_failed_addr f pending a e haddr ha hfa
  · intro client ab tokens addr b hb
    have hr := retryBalanceAt_ok client addr b hb 3
    refine ⟨⟨addr, some ((b : Rat) / 1000000000000000000),
        (match client.balanceAtOld addr with
          | .ok b2 => some ((b2 : Rat) / 1000000000000000000)
          | .error _ => none),
        tokens.foldl
          (fun m t =>
            match fetchTokenBalanceInternal client t (ab addr) with
            | .ok b2 => fun s => if s = t.symbol then some (some b2) else m s
            | .error _ => m)
          (fun _ => none)⟩, ?_, rfl, ?_⟩
    · simp only [mainFetchAccount, hr]
    · intro hall s
      show (tokens.foldl
          (fun m t =>
            match fetchTokenBalanceInternal client t (ab addr) with
            | .ok b2 => fun s => if s = t.symbol then some (some b2) else m s
            | .error _ => m)
          (fun _ => none)) s = none
      rw [mainTokensFold_all_fail client (ab addr) tokens _ hall]

/-- Witness for the amended C4 at a concrete input: with the native
balance succeeding and the single token's balanceOf call failing, the
rpc-package per-address fetch fails and the address is re-pended with
the URL marked failed, while the main.go per-address fetch still
succeeds; and the calldata for a 20-byte address is 36 bytes. -/
theorem tokenFailure_amended_witness :
    (erc20BalanceOfCalldata (List.replicate 20 0)).length = 36 ∧
    isErrExc (fetchAccountData
      ⟨fun _ => .ok 1000000000000000000, fun _ => .error "old",
        fun _ _ => .error "tokfail"⟩
      (fun _ => List.replicate 20 0)
      ⟨"C", ["u1"], [⟨"TOK", "0xt", 6⟩]⟩ "0xa") = true ∧
    "0xa" ∈ (processPending
      (fun a => fetchAccountData
        ⟨fun _ => .ok 1000000000000000000, fun _ => .error "old",
          fun _ _ => .error "tokfail"⟩
        (fun _ => List.replicate 20 0)
        ⟨"C", ["u1"], [⟨"TOK", "0xt", 6⟩]⟩ a)
      ["0xa"] ⟨[], [], none, false⟩).nextPending ∧
    (processPending
      (fun a => fetchAccountData
        ⟨fun _ => .ok 1000000000000000000, fun _ => .error "old",
          fun _ _ => .error "tokfail"⟩
        (fun _ => List.replicate 20 0)
        ⟨"C", ["u1"], [⟨"TOK", "0xt", 6⟩]⟩ a)
      ["0xa"] ⟨[], [], none, false⟩).rpcHasFailure = true ∧
    isErrExc (mainFetchAccount
      ⟨fun _ => .ok 1000000000000000000, fun _ => .error "old",
        fun _ _ => .error "tokfail"⟩
      (fun _ => List.replicate 20 0) [⟨"TOK", "0xt", 6⟩] "0xa") = false := by
  obtain ⟨hpad, hiff, hpp, hmain⟩ := tokenFailure_amended
  refine ⟨(hpad (List.replicate 20 0)).2 (by decide), ?_, ?_, ?_, ?_⟩
  · rcases Bool.eq_false_or_eq_true (isErrExc (fetchAccountData
        ⟨fun _ => .ok 1000000000000000000, fun _ => .error "old",
          fun _ _ => .error "tokfail"⟩
        (fun _ => List.replicate 20 0)
        ⟨"C", ["u1"], [⟨"TOK", "0xt", 6⟩]⟩ "0xa")) with hc | hc
    · exact hc
    · exfalso
      obtain ⟨_, htok⟩ := (hiff
        ⟨fun _ => .ok 1000000000000000000, fun _ => .error "old",
          fun _ _ => .error "tokfail"⟩
        (fun _ => List.replicate 20 0)
        ⟨"C", ["u1"], [⟨"TOK", "0xt", 6⟩]⟩ "0xa").mp hc
      have hx := htok ⟨"TOK", "0xt", 6⟩ (by decide)
      exact absurd hx (by decide)
  · exact (hpp (fun a => fetchAccountData
      ⟨fun _ => .ok 1000000000000000000, fun _ => .error "old",
        fun _ _ => .error "tokfail"⟩
      (fun _ => List.replicate 20 0)
      ⟨"C", ["u1"], [⟨"TOK", "0xt", 6⟩]⟩ a) ["0xa"] "0xa" "tokfail"
      (fun x r h => fetchAccountData_address _ _ _ x r h) (by decide) rfl).1
  · exact (hpp (fun a => fetchAccountData
      ⟨fun _ => .ok 1000000000000000000, fun _ => .error "old",
        fun _ _ => .error "tokfail"⟩
      (fun _ => List.replicate 20 0)
      ⟨"C", ["u1"], [⟨"TOK", "0xt", 6⟩]⟩ a) ["0xa"] "0xa" "tokfail"
      (fun x r h => fetchAccountData_address _ _ _ x r h) (by decide) rfl).2.2
  · obtain ⟨r, hr, _, _⟩ := hmain
      ⟨fun _ => .ok 1000000000000000000, fun _ => .error "old",
        fun _ _ => .error "tokfail"⟩
      (fun _ => List.replicate 20 0) [⟨"TOK", "0xt", 6⟩] "0xa"
      1000000000000000000 rfl
    rw [hr]
    rfl

/-! ### C5 : transaction scanner -/

theorem scanBlockTxs_invariant (hexRender : String → String)
    (dec : Nat) (targetAddr : String) (blockNumber : Nat)
    (addressHex : String)
    (hHex : ∀ a, asciiLower (hexRender a) = asciiLower a)
    (htarget : targetAddr = asciiLower addressHex)
    (txds : List TxData) (txs : List Transaction)
    (hlen : txs.length ≤ 5)
    (hmem : ∀ t ∈ txs,
      foldEq t.From addressHex = true ∨ foldEq t.To addressHex = true) :
    (scanBlockTxs hexRender dec targetAddr blockNumber txds txs).length ≤ 5 ∧
    ∀ t ∈ scanBlockTxs hexRender dec targetAddr blockNumber txds txs,
      foldEq t.From addressHex = true ∨ foldEq t.To addressHex = true := by
  induction txds generalizing txs with
  | nil => exact ⟨hlen, hmem⟩
  | cons txd rest ih =>
    by_cases h5 : txs.length ≥ 5
    · simp only [scanBlockTxs, if_pos h5]
      exact ⟨hlen, hmem⟩
    · rcases hs : txd.sender with _ | fromAddr
      · simp only [scanBlockTxs, if_neg h5, hs]
        exact ih txs hlen hmem
      · by_cases hmatch : txd.toAddr = some targetAddr ∨ fromAddr = targetAddr
        · simp only [scanBlockTxs, if_neg h5, hs, if_pos hmatch]
          apply ih
          · rw [List.length_append]
            simp only [List.length_singleton]
            omega
          · intro t ht
            rcases List.mem_append.mp ht with h | h
            · exact hmem t h
            · have heq := List.mem_singleton.mp h
              subst heq
              rcases hmatch with hto | hfrom
              · right
                simp only [mkTxRecord, hto]
                rw [foldEq]
                rw [hHex targetAddr, htarget, asciiLower_idem]
                simp
              · left
                simp only [mkTxRecord]
                rw [foldEq]
                rw [hHex fromAddr, hfrom, htarget, asciiLower_idem]
                simp
        · simp only [scanBlockTxs, if_neg h5, hs, if_neg hmatch]
          exact ih txs hlen hmem

theorem scanBlocksLoop_invariant (cl : TxClient) (hexRender : String → String)
    (dec : Nat) (targetAddr : String) (head : Int) (addressHex : String)
    (hHex : ∀ a, asciiLower (hexRender a) = asciiLower a)
    (htarget : targetAddr = asciiLower addressHex)
    (count i : Nat) (txs : List Transaction) (blockErr : Option String)
    (hlen : txs.length ≤ 5)
    (hmem : ∀ t ∈ txs,
      foldEq t.From addressHex = true ∨ foldEq t.To addressHex = true) :
    (scanBlocksLoop cl hexRender dec targetAddr head i count txs
      blockErr).1.length ≤ 5 ∧
    ∀ t ∈ (scanBlocksLoop cl hexRender dec targetAddr head i count txs
      blockErr).1,
      foldEq t.From addressHex = true ∨ foldEq t.To addressHex = true := by
  induction count generalizing i txs blockErr with
  | zero => exact ⟨hlen, hmem⟩
  | succ c ih =>
    by_cases h5 : txs.length ≥ 5
    · simp only [scanBlocksLoop, if_pos h5]
      exact ⟨hlen, hmem⟩
    · rcases hb : cl.blockByNumber (head - i) with e | block
      · simp only [scanBlocksLoop, if_neg h5, hb]
        exact ih _ _ _ hlen hmem
      · simp only [scanBlocksLoop, if_neg h5, hb]
        have hinv := scanBlockTxs_invariant hexRender dec targetAddr
          block.number addressHex hHex htarget block.txs txs hlen hmem
        exact ih _ _ _ hinv.1 hinv.2

theorem fetchTransactionsLoop_invariant (env : TxEnv)
    (hexRender : String → String) (dec : Nat) (addressHex : String)
    (hHex : ∀ a, asciiLower (hexRender a) = asciiLower a)
    (urls : List String) (failed : List String) (lastErr : Option String) :
    (fetchTransactionsLoop env hexRender dec addressHex urls failed
      lastErr).1.length ≤ 5 ∧
    ∀ t ∈ (fetchTransactionsLoop env hexRender dec addressHex urls failed
      lastErr).1,
      foldEq t.From addressHex = true ∨ foldEq t.To addressHex = true := by
  induction urls generalizing failed lastErr with
  | nil => simp [fetchTransactionsLoop]
  | cons url rest ih =>
    rcases hd : env.dialErr url with _ | e
    · rcases hh : (env.client url).headNumber with e2 | head
      · simp only [fetchTransactionsLoop, hd, hh]
        exact ih _ _
      · rcases hc : (env.client url).chainId with e3 | cid
        · simp only [fetchTransactionsLoop, hd, hh, hc]
          exact ih _ _
        · simp only [fetchTransactionsLoop, hd, hh, hc]
          by_cases hret : (scanBlocksLoop (env.client url) hexRender dec
              (asciiLower addressHex) head 0 10 [] none).2 ≠ none ∧
              (scanBlocksLoop (env.client url) hexRender dec
                (asciiLower addressHex) head 0 10 [] none).1 = []
          · simp only [if_pos hret]
            exact ih _ _
          · simp only [if_neg hret]
            exact scanBlocksLoop_invariant (env.client url) hexRender dec
              (asciiLower addressHex) head addressHex hHex rfl 10 0 [] none
              (by simp) (by simp)
    · simp only [fetchTransactionsLoop, hd]
      exact ih _ _

/-- C5: the transaction scanner returns at most 5 records; every record's
sender or recipient equals the target address case-insensitively; and a
record's To field is the literal "Contract" precisely when the underlying
transaction has no recipient.  `hexRender` models the EIP-55 `Hex()`
rendering: a case-variant of the canonical address that is never the
string "Contract". -/
theorem FetchTransactions_spec (env : TxEnv) (hexRender : String → String)
    (addressHex : String) (rpcURLs : List String) (tokenDecimals : Nat)
    (hHex : ∀ a, asciiLower (hexRender a) = asciiLower a)
    (hC : ∀ a, hexRender a ≠ "Contract") :
    (FetchTransactions env hexRender addressHex rpcURLs
      tokenDecimals).1.length ≤ 5 ∧
    (∀ t ∈ (FetchTransactions env hexRender addressHex rpcURLs
        tokenDecimals).1,
      foldEq t.From addressHex = true ∨ foldEq t.To addressHex = true) ∧
    (∀ (d n : Nat) (txd : TxData) (f : String),
      (mkTxRecord hexRender d n txd f).To = "Contract" ↔
        txd.toAddr = none) := by
  have hinv := fetchTransactionsLoop_invariant env hexRender tokenDecimals
    addressHex hHex rpcURLs [] none
  refine ⟨hinv.1, hinv.2, ?_⟩
  intro d n txd f
  rcases hto : txd.toAddr with _ | a
  · simp [mkTxRecord, hto]
  · simp [mkTxRecord, hto, hC a]

/-- Witness for C5 at a concrete input: one URL whose head block 16
contains one contract-creation transaction sent by the target (given as
the case-variant "0xAB").  The scan returns that one record, whose To
field is "Contract". -/
theorem FetchTransactions_spec_witness :
    (FetchTransactions
      ⟨fun _ => none,
        fun _ => ⟨.ok 16, .ok 1,
          fun n => if n = 16
            then .ok ⟨16, [⟨"h1", some "0xab", none, 1000000000000000000,
              21000, 20000000000, 1⟩]⟩
            else .ok ⟨15, []⟩⟩⟩
      (fun a => if a = "Contract" then "ContracT" else a)
      "0xAB" ["u"] 4).1.length ≤ 5 ∧
    ((mkTxRecord (fun a => if a = "Contract" then "ContracT" else a) 4 16
      ⟨"h1", some "0xab", none, 1000000000000000000, 21000, 20000000000, 1⟩
      "0xab").To = "Contract" ↔
      (⟨"h1", some "0xab", none, 1000000000000000000, 21000, 20000000000, 1⟩
        : TxData).toAddr = none) ∧
    (FetchTransactions
      ⟨fun _ => none,
        fun _ => ⟨.ok 16, .ok 1,
          fun n => if n = 16
            then .ok ⟨16, [⟨"h1", some "0xab", none, 1000000000000000000,
              21000, 20000000000, 1⟩]⟩
            else .ok ⟨15, []⟩⟩⟩
      (fun a => if a = "Contract" then "ContracT" else a)
      "0xAB" ["u"] 4).1.map (fun t => t.Hash) = ["h1"] ∧
    ((FetchTransactions
      ⟨fun _ => none,
        fun _ => ⟨.ok 16, .ok 1,
          fun n => if n = 16
            then .ok ⟨16, [⟨"h1", some "0xab", none, 1000000000000000000,
              21000, 20000000000, 1⟩]⟩
            else .ok ⟨15, []⟩⟩⟩
      (fun a => if a = "Contract" then "ContracT" else a)
      "0xAB" ["u"] 4).1.headD
        ⟨"", "", "", "", 0, 0, "", 0⟩).To = "Contract" := by
  have hHex : ∀ a, asciiLower ((fun a => if a = "Contract" then "ContracT"
      else a) a) = asciiLower a := by
    intro a
    by_cases h : a = "Contract"
    · subst h
      decide
    · simp [h]
  have hC : ∀ a, (fun a => if a = "Contract" then "ContracT" else a) a ≠
      "Contract" := by
    intro a
    by_cases h : a = "Contract"
    · subst h
      decide
    · simpa [h] using h
  obtain ⟨h1, _, h3⟩ := FetchTransactions_spec
    ⟨fun _ => none,
      fun _ => ⟨.ok 16, .ok 1,
        fun n => if n = 16
          then .ok ⟨16, [⟨"h1", some "0xab", none, 1000000000000000000,
            21000, 20000000000, 1⟩]⟩
          else .ok ⟨15, []⟩⟩⟩
    (fun a => if a = "Contract" then "ContracT" else a)
    "0xAB" ["u"] 4 hHex hC
  refine ⟨h1, h3 4 16 _ "0xab", ?_, ?_⟩
  · rfl
  · rfl
